import Mathlib

/-!
# Verification of the mini-nextjs-page-router routing core

Shallow embedding of the routing, build and client-navigation code of the
`mini-nextjs-page-router` repository:

* `build/generate-routes.js` — `generateRoutes`, `pathToRegex`
* `build/render-static.js` — `renderStaticPage`, `getOutputPath`
* `build/scan-pages.js` — `generateRoutePath`, `extractParamNames`, scan loop body
* `build/index.js` — the per-route build loop that assigns `renderType`
* `server/router.ts` — `matchRoute`, `extractParams`, query stripping
* `server/render-ssg.ts` — `getStaticFilePath`
* `client/link.tsx` — the manifest-matching routine of `loadPageComponent`
* `client/router.tsx` — `Router.fetchPageData`, `Router.push`, `Router.replace`

Strings are modelled as `List Char` (bridged to `String` at the interfaces).
JavaScript regular expressions only occur in this code base in a tiny fragment
(anchored patterns made of escaped literal characters and the capture group
`([^/]+)`, resp. the bare class `[^/]+` on the client); the fragment is given
an executable backtracking interpreter (`reMatch`, `cMatch`) that is faithful
to the greedy leftmost-match semantics of JavaScript on exactly this fragment.
JavaScript objects used as string-keyed records are modelled as association
lists with in-place update (`objSet`), matching JS property-assignment
semantics (first-insertion key order, later writes overwrite the value).
-/

namespace MiniNext

/-- Opening curly brace character (written via its code point). -/
def lbrace : Char := Char.ofNat 123

/-- Closing curly brace character (written via its code point). -/
def rbrace : Char := Char.ofNat 125

/-- The character class of `generate-routes.js` line 55:
`/[.*+?^$\x7b\x7d()|[\]\\]/` — the regex metacharacters that `pathToRegex`
escapes before converting `:param` tokens. -/
def isRegexSpecial (c : Char) : Bool :=
  c = '.' || c = '*' || c = '+' || c = '?' || c = '^' || c = '$' ||
  c = lbrace || c = rbrace || c = '(' || c = ')' || c = '|' ||
  c = '[' || c = ']' || c = '\\'

/-- `routePath.replace(/[.*+?^$\x7b\x7d()|[\]\\]/g, String.fromCharCode(92) + "$&")`
(`generate-routes.js` line 55): insert a backslash before every regex
metacharacter. -/
def escapeChars : List Char → List Char
  | [] => []
  | c :: cs => (if isRegexSpecial c then ['\\', c] else [c]) ++ escapeChars cs

/-- The seven characters of the capture group `([^/]+)` that `pathToRegex`
substitutes for each `:param` token (`generate-routes.js` line 59). -/
def groupChars : List Char := ['(', '[', '^', '/', ']', '+', ')']

/-- The five characters of the bare wildcard `[^/]+` that the client's
`loadPageComponent` substitutes for each `:param` token
(`client/link.tsx` line 149). -/
def wildChars : List Char := ['[', '^', '/', ']', '+']

/-- `pattern.replace(/:([^/]+)/g, out)` — scan left to right; at a `:` that is
followed by at least one non-`/` character, consume the `:` together with the
maximal run of non-`/` characters (the greedy `[^/]+`) and emit `out`;
every other character is copied.  The boolean state is `true` while inside a
consumed run (skipping up to the next `/`).  Used with `out = groupChars` by
the server-side `pathToRegex` (`generate-routes.js` line 59) and with
`out = wildChars` by the client route conversion (`client/link.tsx` line 149). -/
def colonRunsAux (out : List Char) : Bool → List Char → List Char
  | false, [] => []
  | false, c :: cs =>
    if c = ':' then
      match cs with
      | d :: _ => if d = '/' then ':' :: colonRunsAux out false cs
                  else out ++ colonRunsAux out true cs
      | [] => [':']
    else c :: colonRunsAux out false cs
  | true, [] => []
  | true, c :: cs => if c = '/' then '/' :: colonRunsAux out false cs
                     else colonRunsAux out true cs

/-- `pathToRegex` (`generate-routes.js` lines 53–63): escape the regex
metacharacters, replace every `:param` token by the capture group `([^/]+)`,
and anchor the result with `^` and `$`. -/
def pathToRegex (routePath : String) : String :=
  ⟨'^' :: colonRunsAux groupChars false (escapeChars routePath.data) ++ ['$']⟩

/-! ## Interpreter for the emitted regex fragment

`new RegExp(pattern)` / `pathname.match(regex)` are modelled for the patterns
that actually occur: anchored sequences of literal characters (possibly
backslash-escaped) and capture groups `([^/]+)`.  The group is matched
greedily with backtracking, exactly as a JS regex engine does: candidate
captures are the nonempty runs of non-`/` characters at the current position,
tried from longest to shortest. -/

/-- All splits `(cap, rest)` of the input where `cap` is a nonempty run of
non-`/` characters, shortest capture first. -/
def splitsAsc : List Char → List (List Char × List Char)
  | [] => []
  | d :: ds =>
    if d = '/' then []
    else ([d], ds) :: (splitsAsc ds).map (fun s => (d :: s.1, s.2))

/-- Candidate captures for `([^/]+)`, greedy order (longest first). -/
def splitsDesc (ds : List Char) : List (List Char × List Char) :=
  (splitsAsc ds).reverse

/-- A token of the regex fragment this code base emits: a literal character,
or the single-segment capture group `([^/]+)` (resp. its capture-less client
variant `[^/]+`). -/
inductive RToken
  | tlit : Char → RToken
  | tgroup : RToken
  deriving Repr, DecidableEq

/-- Reading of a server-side pattern core (as emitted by `pathToRegex`,
anchors removed) as regex tokens: a backslash makes the next character
literal, the seven-character sequence `([^/]+)` is a capture group, every
other character is literal.  The fuel (initialised to the length) keeps the
recursion structural. -/
def lexAux : Nat → List Char → List RToken
  | 0, _ => []
  | _, [] => []
  | fuel + 1, c :: cs =>
    if c = '\\' then
      match cs with
      | d :: ds => .tlit d :: lexAux fuel ds
      | [] => [.tlit '\\']
    else if c = '(' ∧ cs.take 6 = ['[', '^', '/', ']', '+', ')'] then
      .tgroup :: lexAux fuel (cs.drop 6)
    else .tlit c :: lexAux fuel cs

/-- Tokens of a server-side pattern core. -/
def lexPattern (l : List Char) : List RToken := lexAux l.length l

/-- Reading of a client-side converted pattern (as built by
`loadPageComponent`, anchors removed) as regex tokens: the five-character
sequence `[^/]+` is a wildcard group, every other character is literal (the
client performs no escaping). -/
def lexCAux : Nat → List Char → List RToken
  | 0, _ => []
  | _, [] => []
  | fuel + 1, c :: cs =>
    if c = '[' ∧ cs.take 4 = ['^', '/', ']', '+'] then
      .tgroup :: lexCAux fuel (cs.drop 4)
    else .tlit c :: lexCAux fuel cs

/-- Tokens of a client-side converted pattern. -/
def lexClient (l : List Char) : List RToken := lexCAux l.length l

/-- Backtracking matcher over regex tokens, faithful to the greedy
leftmost-match semantics of a JS regex engine on this fragment: a group's
candidate captures are the nonempty runs of non-`/` characters at the
current position, tried from longest to shortest. -/
def matchToks : List RToken → List Char → Option (List (List Char))
  | [], input => if input.isEmpty then some [] else none
  | .tlit c :: ts, input =>
    match input with
    | d :: ds => if c = d then matchToks ts ds else none
    | [] => none
  | .tgroup :: ts, input =>
    (splitsDesc input).findSome?
      (fun s => (matchToks ts s.2).map (fun caps => s.1 :: caps))

/-- Strip the `^` … `$` anchors from a pattern produced by `pathToRegex`. -/
def stripAnchors (l : List Char) : Option (List Char) :=
  match l with
  | '^' :: rest => if rest.getLast? = some '$' then some rest.dropLast else none
  | _ => none

/-- `pathname.match(new RegExp(pattern))` for the anchored patterns stored in
the route manifest, projected to the list of captured groups
(`match[1], match[2], …`; `match[0]` is the whole input for a fully anchored
pattern and is not represented). -/
def jsMatch (pattern input : String) : Option (List String) :=
  match stripAnchors pattern.data with
  | some core =>
    (matchToks (lexPattern core) input.data).map
      (fun caps => caps.map (fun c => String.mk c))
  | none => none

/-! ## Server router (`server/router.ts`) -/

/-- One entry of the route manifest (`generateRoutes`, `generate-routes.js`
lines 14–40; `types/index.ts` RouteEntry). -/
structure RouteEntry where
  path : String
  componentPath : String
  pattern : String
  paramNames : List String
  isDynamic : Bool
  renderType : Option String
  deriving Repr, DecidableEq

/-- `matchRoute`'s result (`server/router.ts` lines 54–61). -/
structure MatchResult where
  route : RouteEntry
  params : List (String × String)
  deriving Repr, DecidableEq

/-- JS object property assignment `obj[k] = v` on a string-keyed record
modelled as an association list with unique keys (JS records cannot hold a
key twice): an existing key keeps its position and gets the new value, a new
key is appended. -/
def objSet (obj : List (String × String)) (k v : String) : List (String × String) :=
  match obj with
  | [] => [(k, v)]
  | p :: t => if p.1 = k then (k, v) :: t else p :: objSet t k v

/-- Property lookup `obj[k]` on the association-list model. -/
def lookupObj (obj : List (String × String)) (k : String) : Option String :=
  match obj with
  | [] => none
  | p :: t => if p.1 = k then some p.2 else lookupObj t k

/-- `extractParams(match, paramNames)` (`server/router.ts` lines 81–90):
`paramNames.forEach((name, index) => params[name] = match[index + 1] || "")`.
The capture list is `match[1], match[2], …`; a capture that is absent or
`undefined` (and likewise an empty capture, which `||` also sends to `""`)
yields the empty string. -/
def extractParams (capList : List (Option String)) (paramNames : List String) :
    List (String × String) :=
  paramNames.enum.foldl (fun obj p => objSet obj p.2 (((capList.getD p.1 none).getD ""))) []

/-- `url.split('?')[0] || '/'` (`server/router.ts` line 47): everything before
the first `?`; the empty string is falsy in JS and coerced to `/`. -/
def stripQuery (url : String) : String :=
  let first := url.data.takeWhile (fun c => c ≠ '?')
  if first.isEmpty then "/" else ⟨first⟩

/-- The route loop of `matchRoute` (`server/router.ts` lines 50–63): test each
route's compiled pattern against the pathname in manifest order and return
the first match together with its positionally extracted parameters. -/
def matchLoop : List RouteEntry → String → Option MatchResult
  | [], _ => none
  | r :: rest, pathname =>
    match jsMatch r.pattern pathname with
    | some caps => some ⟨r, extractParams (caps.map some) r.paramNames⟩
    | none => matchLoop rest pathname

/-- `matchRoute(url)` (`server/router.ts` lines 41–67): strip the query
component, then run the first-match loop over the manifest routes. -/
def matchRoute (routes : List RouteEntry) (url : String) : Option MatchResult :=
  matchLoop routes (stripQuery url)

/-! ## Client manifest matching (`client/link.tsx`) -/

/-- A client route entry (the trimmed manifest embedded in rendered pages,
`generateHTMLDocument` in `render-static.js` / `getClientManifest` in
`server/router.ts`). -/
structure ClientRoute where
  path : String
  componentPath : String
  isDynamic : Bool
  paramNames : List String
  deriving Repr, DecidableEq

/-- The per-entry test of `loadPageComponent`'s `manifest.find`
(`client/link.tsx` lines 141–154): exact path equality, or — for a dynamic
route — a test of the page against the wildcard conversion of the route
path. -/
def clientRouteTest (r : ClientRoute) (page : String) : Bool :=
  r.path = page ||
    (r.isDynamic &&
      (matchToks (lexClient (colonRunsAux wildChars false r.path.data))
        page.data).isSome)

/-- The manifest-matching routine of `loadPageComponent`
(`client/link.tsx` lines 141–154): the first entry passing
`clientRouteTest`, in manifest order. -/
def clientFind (manifest : List ClientRoute) (page : String) : Option ClientRoute :=
  manifest.find? (fun r => clientRouteTest r page)

/-! ## Rendering-mode resolution (`build/render-static.js`) -/

/-- The data-fetching capabilities a page module may export
(`render-static.js` line 134): presence of `getServerSideProps` and
`getStaticProps`, and — when `getStaticPaths` is exported — the parameter
tuples returned by invoking it (`paths[i].params`). -/
structure PageCaps where
  getServerSideProps : Bool
  getStaticPaths : Option (List (List (String × String)))
  getStaticProps : Bool
  deriving Repr, DecidableEq

/-- The value returned by `renderStaticPage`: `declined reason` models
`\x7b success: false, reason \x7d`, `ok count type` models
`\x7b success: true, count, type \x7d`, and `failed e` models the catch
branch `\x7b success: false, error \x7d` (reachable only when an external
collaborator — module import, a capability call or the renderer — throws,
which is outside the capability model below). -/
inductive RenderDisposition
  | declined : String → RenderDisposition
  | ok : Nat → String → RenderDisposition
  | failed : String → RenderDisposition
  deriving Repr, DecidableEq

/-- `renderStaticPage` decision logic (`render-static.js` lines 127–204):
`getServerSideProps` wins first; then a dynamic route without
`getStaticPaths` is declined; a dynamic route with `getStaticPaths` renders
one artifact pair per enumerated path; a static route renders once, with
subtype according to the presence of `getStaticProps`. -/
def renderStaticPage (route : RouteEntry) (m : PageCaps) : RenderDisposition :=
  if m.getServerSideProps then .declined "has-getServerSideProps"
  else if route.isDynamic then
    match m.getStaticPaths with
    | none => .declined "dynamic-no-paths"
    | some paths => .ok paths.length "ssg-dynamic"
  else if m.getStaticProps then .ok 1 "ssg-with-data"
  else .ok 1 "ssg-pure"

/-- `result.success` of a disposition. -/
def isSuccess : RenderDisposition → Bool
  | .ok _ _ => true
  | _ => false

/-- The body of the per-route build loop (`build/index.js` lines 577–603):
after `renderStaticPage` returns, the route's `renderType` is assigned
`'ssg'` on success and `'ssr'` otherwise; nothing else of the entry is
touched. -/
def applyRenderType (r : RouteEntry) (d : RenderDisposition) : RouteEntry :=
  if isSuccess d then { r with renderType := some "ssg" }
  else { r with renderType := some "ssr" }

/-- The sequential per-route build loop of `build/index.js` (lines 577–603),
with the page modules' capabilities supplied as an environment. -/
def buildLoop (routes : List RouteEntry) (caps : RouteEntry → PageCaps) : List RouteEntry :=
  routes.map (fun r => applyRenderType r (renderStaticPage r (caps r)))

/-! ## Client navigation cache (`client/router.tsx`) -/

/-- The payload of a data-only navigation response (`PageData`). -/
structure PageData where
  pageProps : String
  query : Option (List (String × String))
  deriving Repr, DecidableEq

/-- One cache entry: `\x7b data, timestamp \x7d` (`client/router.tsx`
lines 102–105). -/
structure CachedEntry where
  data : PageData
  timestamp : Nat
  deriving Repr, DecidableEq

/-- JS `Map.set` on an insertion-ordered string-keyed map with unique keys:
an existing key is updated in place, a new key is appended. -/
def mapSet {α : Type} (l : List (String × α)) (k : String) (v : α) :
    List (String × α) :=
  match l with
  | [] => [(k, v)]
  | p :: t => if p.1 = k then (k, v) :: t else p :: mapSet t k v

/-- JS `Map.get` (`none` models `Map.has` returning false). -/
def lookupPair {α : Type} (l : List (String × α)) (k : String) : Option α :=
  match l with
  | [] => none
  | p :: t => if p.1 = k then some p.2 else lookupPair t k

/-- JS `Map.delete`. -/
def mapDelete {α : Type} (l : List (String × α)) (k : String) :
    List (String × α) :=
  l.filter (fun p => p.1 ≠ k)

/-- The mutable state of the client `Router` relevant to `fetchPageData`:
`cache` and `prefetchPromises` (`client/router.tsx` lines 38–42).  Promises
are identified by the order in which they are created (`nextId`), and
`requestsIssued` logs every network `fetch` call so that "exactly one
network request" is expressible. -/
structure FetchState where
  cache : List (String × CachedEntry)
  pending : List (String × Nat)
  nextId : Nat
  requestsIssued : List (String × Nat)
  deriving Repr, DecidableEq

/-- What a call to `fetchPageData` hands back to its caller: an
already-resolved cached value, or a promise (either the recorded pending one
or a freshly created one). -/
inductive FetchReturn
  | value : PageData → FetchReturn
  | promise : Nat → FetchReturn
  deriving Repr, DecidableEq

/-- `Router.fetchPageData(url, \x7b force \x7d)` (`client/router.tsx` lines
80–122): return the cache entry's data unless `force`; otherwise join an
in-flight request for the same URL; otherwise issue one network request,
record its promise as pending and return it. -/
def fetchPageData (st : FetchState) (url : String) (force : Bool) :
    FetchReturn × FetchState :=
  match (if force then none else lookupPair st.cache url) with
  | some c => (.value c.data, st)
  | none =>
    match lookupPair st.pending url with
    | some pid => (.promise pid, st)
    | none =>
      let pid := st.nextId
      (.promise pid,
       { st with pending := mapSet st.pending url pid,
                 nextId := pid + 1,
                 requestsIssued := st.requestsIssued ++ [(url, pid)] })

/-- The `.then` continuation of the request promise (`client/router.tsx`
lines 100–111): store the result in the cache keyed by URL with a timestamp
and clear the pending entry. -/
def resolveOk (st : FetchState) (url : String) (d : PageData) (now : Nat) :
    FetchState :=
  { st with cache := mapSet st.cache url ⟨d, now⟩,
            pending := mapDelete st.pending url }

/-- The `.catch` continuation (`client/router.tsx` lines 112–116): clear the
pending entry and rethrow; the cache is not touched. -/
def resolveErr (st : FetchState) (url : String) : FetchState :=
  { st with pending := mapDelete st.pending url }

/-! ## Client navigation `push` / `replace` (`client/router.tsx`) -/

/-- Router events, named after `routeChangeStart`, `routeChangeComplete`
and `routeChangeError`. -/
inductive NavEvent
  | start : String → NavEvent
  | complete : String → PageData → NavEvent
  | error : String → String → NavEvent
  deriving Repr, DecidableEq

/-- The router's in-memory navigation state (`pathname` / `query`). -/
structure NavState where
  pathname : String
  query : List (String × String)
  deriving Repr, DecidableEq

/-- Browser history operations. -/
inductive HistoryOp
  | pushState : String → HistoryOp
  | replaceState : String → HistoryOp
  deriving Repr, DecidableEq

/-- How the awaited `fetchPageData(url)` settles: fulfilled with data, or
rejected with an error. -/
inductive FetchEnd
  | ok : PageData → FetchEnd
  | err : String → FetchEnd
  deriving Repr, DecidableEq

/-- Observable outcome of one `push`/`replace` call: the events emitted, the
resulting router state, the history operations performed, and whether an
exception escaped the call. -/
structure NavOutcome where
  events : List NavEvent
  state : NavState
  history : List HistoryOp
  uncaught : Bool
  deriving Repr, DecidableEq

/-- The `try` body shared by `push` and `replace` (`client/router.tsx` lines
131–146 and 161–172): emit `routeChangeStart`, await the fetch — on
fulfilment update `pathname` and `query` (`data.query || \x7b\x7d`), perform
the history operation and emit `routeChangeComplete`; a rejected fetch
aborts the body with the error after the start event. -/
def navBody (url : String) (f : FetchEnd) (op : String → HistoryOp) :
    List NavEvent × Except String (NavState × List HistoryOp) :=
  match f with
  | .ok d => ([.start url, .complete url d], .ok (⟨url, d.query.getD []⟩, [op url]))
  | .err e => ([.start url], .error e)

/-- The `catch` wrapper shared by `push` and `replace`: a body error is
converted into a `routeChangeError` event; no exception escapes. -/
def navRun (st : NavState) (url : String) (f : FetchEnd) (op : String → HistoryOp) :
    NavOutcome :=
  match navBody url f op with
  | (evs, .ok (st2, hist)) => ⟨evs, st2, hist, false⟩
  | (evs, .error e) => ⟨evs ++ [.error e url], st, [], false⟩

/-- `Router.push(url)` (`client/router.tsx` lines 128–151). -/
def pushNav (st : NavState) (url : String) (f : FetchEnd) : NavOutcome :=
  navRun st url f .pushState

/-- `Router.replace(url)` (`client/router.tsx` lines 157–177). -/
def replaceNav (st : NavState) (url : String) (f : FetchEnd) : NavOutcome :=
  navRun st url f .replaceState

/-! ## Artifact-path derivation (`render-static.js` / `server/render-ssg.ts`)

`getOutputPath` (`render-static.js` lines 331–346) substitutes parameters
with `outputPath.replace(new RegExp(':' + key, 'g'), value)` — a global
replacement of every occurrence; `getStaticFilePath`
(`server/render-ssg.ts` lines 72–86) uses
`filePath.replace(':' + key, value)` — a plain-string replacement of only
the FIRST occurrence.  Both are modelled at the character level as literal
substring substitutions inserting the value verbatim; this is faithful
exactly when every parameter name is free of regex metacharacters (so the
constructed `RegExp` denotes the literal string `:key`) and every value is
free of `$` (so `String.prototype.replace` interprets no substitution
pattern in it).  That domain is made explicit by `paramsLiteralOk`, a
hypothesis of the agreement theorem; outside it (e.g. the scanner-producible
parameter name `a.b`, whose `.` the built regex treats as a wildcard) the
two source functions genuinely diverge from the literal model.  The
recursions carry a fuel argument (initialised to the string length) so that
they stay structurally recursive and kernel-computable. -/

/-- Fueled scan of `String.replace(pattern, sub)` with the `g` flag: replace
every non-overlapping occurrence of `pat`, left to right. -/
def replaceAllAux (pat sub : List Char) : Nat → List Char → List Char
  | _, [] => []
  | 0, s => s
  | fuel + 1, c :: cs =>
    if !pat.isEmpty && pat.isPrefixOf (c :: cs) then
      sub ++ replaceAllAux pat sub fuel ((c :: cs).drop pat.length)
    else c :: replaceAllAux pat sub fuel cs

/-- Global (`g`-flag) replacement, as performed by `getOutputPath`. -/
def replaceAllSub (pat sub s : List Char) : List Char :=
  replaceAllAux pat sub s.length s

/-- JS `String.prototype.replace` with a plain string pattern: replace only
the first occurrence, as performed by `getStaticFilePath`. -/
def replaceFirstSub (pat sub : List Char) : List Char → List Char
  | [] => []
  | c :: cs =>
    if !pat.isEmpty && pat.isPrefixOf (c :: cs) then
      sub ++ (c :: cs).drop pat.length
    else c :: replaceFirstSub pat sub cs

/-- Number of occurrences `pat` found by the same left-to-right
non-overlapping scan that `replaceAllAux` performs. -/
def countAux (pat : List Char) : Nat → List Char → Nat
  | _, [] => 0
  | 0, _ => 0
  | fuel + 1, c :: cs =>
    if !pat.isEmpty && pat.isPrefixOf (c :: cs) then
      1 + countAux pat fuel ((c :: cs).drop pat.length)
    else countAux pat fuel cs

/-- Occurrence count of `pat` in `s` (left-to-right, non-overlapping). -/
def countSub (pat s : List Char) : Nat :=
  countAux pat s.length s

/-- `getOutputPath`'s substitution loop (`render-static.js` lines 335–338):
fold over `Object.entries(params)` in insertion order, replacing all
occurrences of `:key`. -/
def getOutputPathChars (route : List Char) (params : List (String × String)) :
    List Char :=
  params.foldl (fun a kv => replaceAllSub (':' :: kv.1.data) kv.2.data a) route

/-- `getOutputPath(routePath, params)` (`render-static.js` lines 331–346):
substitute every occurrence of each `:key`, then map the root path `/` to
`/index`. -/
def getOutputPath (routePath : String) (params : List (String × String)) : String :=
  let subst : String := ⟨getOutputPathChars routePath.data params⟩
  if subst = "/" then "/index" else subst

/-- `getStaticFilePath`'s substitution loop (`server/render-ssg.ts` lines
76–78): fold over `Object.entries(params)`, replacing only the first
occurrence of `:key`. -/
def getStaticFilePathChars (route : List Char) (params : List (String × String)) :
    List Char :=
  params.foldl (fun a kv => replaceFirstSub (':' :: kv.1.data) kv.2.data a) route

/-- `getStaticFilePath(routePath, params)` (`server/render-ssg.ts` lines
72–86): substitute the first occurrence of each `:key`, then map the root
path `/` to `/index`. -/
def getStaticFilePath (routePath : String) (params : List (String × String)) : String :=
  let subst : String := ⟨getStaticFilePathChars routePath.data params⟩
  if subst = "/" then "/index" else subst

/-- Per-step single-occurrence condition: along `getOutputPath`'s fold, the
current path contains at most one occurrence of each key's `:key` marker. -/
def stepsOk : List Char → List (String × String) → Bool
  | _, [] => true
  | s, kv :: ps =>
    decide (countSub (':' :: kv.1.data) s ≤ 1) &&
      stepsOk (replaceAllSub (':' :: kv.1.data) kv.2.data s) ps

/-- A parameter name over which `new RegExp(':' + key, 'g')` denotes the
literal string `:key`: no character of the key is a regex metacharacter. -/
def keyLiteralOk (k : String) : Bool :=
  k.data.all (fun c => !isRegexSpecial c)

/-- A replacement value in which JS `String.prototype.replace` interprets no
`$` substitution pattern: the value contains no `$`. -/
def valLiteralOk (v : String) : Bool :=
  v.data.all (fun c => c ≠ '$')

/-- The domain on which the literal-substring model of the two substitution
loops is faithful to the source: every parameter name is metacharacter-free
and every value is `$`-free, so both `getOutputPath`'s regex replacement and
`getStaticFilePath`'s plain-string replacement substitute occurrences of the
literal `:key` by the verbatim value. -/
def paramsLiteralOk (params : List (String × String)) : Bool :=
  params.all (fun kv => keyLiteralOk kv.1 && valLiteralOk kv.2)

/-- Index-passing reformulation of the `forEach` loop of `extractParams`. -/
def epAux (capList : List (Option String)) (i : Nat) (names : List String)
    (obj : List (String × String)) : List (String × String) :=
  match names with
  | [] => obj
  | n :: t => epAux capList (i + 1) t (objSet obj n ((capList.getD i none).getD ""))

/-- The two-route manifest used to witness C5. -/
def c5Routes : List RouteEntry :=
  [⟨"/about", "pages/about.jsx", pathToRegex "/about", [], false, some "ssg"⟩,
   ⟨"/blog/:id", "pages/blog/[id].jsx", pathToRegex "/blog/:id", ["id"], true, some "ssg"⟩]

/-! ## Page scanner (`build/scan-pages.js`) -/

/-- `str.replace(/\[(.+?)\]/g, ':' + '$1')` (`scan-pages.js` lines 442 and
445): at each `[`, lazily capture the shortest nonempty run up to the first
following `]` and replace the whole bracket group by `:` followed by the
captured text; a `[` with no viable closing `]` is copied verbatim.  The
boolean state is `true` while copying a capture (up to its closing `]`). -/
def b2cAux : Bool → List Char → List Char
  | _, [] => []
  | false, c :: cs =>
    if c = '[' then
      match cs with
      | d :: ds => if ']' ∈ ds then ':' :: d :: b2cAux true ds
                   else '[' :: d :: ds
      | [] => ['[']
    else c :: b2cAux false cs
  | true, c :: cs => if c = ']' then b2cAux false cs else c :: b2cAux true cs

/-- Bracket-to-colon conversion on a string. -/
def bracketToColon (s : String) : String := ⟨b2cAux false s.data⟩

/-- `generateRoutePath(basePath, fileName)` (`scan-pages.js` lines 435–451):
an `index` file maps to its directory path (returned verbatim); otherwise
brackets are converted to `:param` in both the base path and the file name
and the two are joined under a leading `/`. -/
def generateRoutePath (basePath fileName : String) : String :=
  if fileName = "index" then (if basePath = "" then "/" else "/" ++ basePath)
  else
    let convertedBasePath := bracketToColon basePath
    let routeSegment := bracketToColon fileName
    let fullPath :=
      if convertedBasePath = "" then routeSegment
      else convertedBasePath ++ "/" ++ routeSegment
    "/" ++ fullPath

/-- The dot-count the regex `\[\.{0,3}(.+?)\]` of `extractParamNames`
settles on at a `[`: greedily up to three leading dots, backtracking while
the remainder does not contain a closing `]` after at least one captured
character. -/
def chooseDots (cs : List Char) : Option Nat :=
  let m := min 3 ((cs.takeWhile (fun c => c = '.')).length)
  ((List.range (m + 1)).map (fun i => m - i)).find?
    (fun k => match cs.drop k with
      | _ :: ds => decide (']' ∈ ds)
      | [] => false)

/-- `filePath.matchAll(/\[\.{0,3}(.+?)\]/g)` (`scan-pages.js` lines 465–468):
scan for `[`, skip the chosen number of dots, then capture lazily up to the
first `]`.  The `some acc` state collects the capture. -/
def epn : Option (List Char) → List Char → List (List Char)
  | none, [] => []
  | none, c :: cs =>
    if c = '[' then
      match chooseDots cs with
      | some 0 => match cs with
        | d :: t => epn (some [d]) t
        | [] => []
      | some 1 => match cs with
        | _ :: d :: t => epn (some [d]) t
        | _ => []
      | some 2 => match cs with
        | _ :: _ :: d :: t => epn (some [d]) t
        | _ => []
      | some 3 => match cs with
        | _ :: _ :: _ :: d :: t => epn (some [d]) t
        | _ => []
      | some (_ + 4) => epn none cs
      | none => epn none cs
    else epn none cs
  | some _, [] => []
  | some acc, c :: cs =>
    if c = ']' then acc :: epn none cs else epn (some (acc ++ [c])) cs

/-- `extractParamNames(filePath)` (`scan-pages.js` lines 465–468). -/
def extractParamNames (filePath : String) : List String :=
  (epn none filePath.data).map (fun l => ⟨l⟩)

/-- `/\[.*\]/.test(path)` (`scan-pages.js` line 397): some `[` is followed,
anywhere later, by a `]`. -/
def hasBracketPair : List Char → Bool
  | [] => false
  | c :: cs => (if c = '[' then decide (']' ∈ cs) else false) || hasBracketPair cs

/-- A scanned page (`scan-pages.js` lines 402–413). -/
structure PageMetadata where
  filePath : String
  routePath : String
  fileName : String
  isDynamic : Bool
  paramNames : List String
  deriving Repr, DecidableEq

/-- The per-file body of the scan loop (`scan-pages.js` lines 370–414):
`fileName` is the base name without extension, the dynamic flag and the
parameter names are computed from the full relative path (directories
included, extension included). -/
def scanFile (basePath fileName ext fullPath : String) : PageMetadata :=
  let file := fileName ++ ext
  let fullRel := if basePath = "" then file else basePath ++ "/" ++ file
  let isDyn := hasBracketPair fullRel.data
  { filePath := fullPath,
    routePath := generateRoutePath basePath fileName,
    fileName := file,
    isDynamic := isDyn,
    paramNames := if isDyn then extractParamNames fullRel else [] }

/-- The per-page body of `generateRoutes` (`generate-routes.js` lines 15–33). -/
def generateRoutesEntry (p : PageMetadata) : RouteEntry :=
  { path := p.routePath,
    componentPath := p.filePath,
    pattern := pathToRegex p.routePath,
    paramNames := p.paramNames,
    isDynamic := p.isDynamic,
    renderType := none }

/-- Number of capture groups of a pattern in the emitted fragment: the
unescaped opening parentheses. -/
def countGroups : List Char → Nat
  | [] => 0
  | c :: cs =>
    if c = '\\' then
      match cs with
      | [] => 0
      | _ :: cs2 => countGroups cs2
    else (if c = '(' then 1 else 0) + countGroups cs

/-! ## Segment model of route paths

A route path produced by the page scanner from conventionally named files
(`[name]` as a whole directory or file base name) is a `/`-separated list of
segments, each either a literal or a `:name` parameter.  The round-trip and
dispatch-equivalence claims are proved over this model. -/

/-- A route-path segment: a literal, or a `[name]` parameter (written
`:name` in the route path). -/
inductive Seg
  | lit : List Char → Seg
  | par : List Char → Seg
  deriving Repr, DecidableEq

/-- The characters a segment contributes to the route path. -/
def segChars : Seg → List Char
  | .lit l => l
  | .par n => ':' :: n

/-- Route-path characters of a segment list: `/seg1/seg2/…`
(the empty list gives the empty path). -/
def pathChars : List Seg → List Char
  | [] => []
  | s :: rest => '/' :: segChars s ++ pathChars rest

/-- The route path of a segment list as a string. -/
def routePathOf (segs : List Seg) : String := ⟨pathChars segs⟩

/-- Parameter names of a segment list, in order. -/
def paramNamesOf : List Seg → List (List Char)
  | [] => []
  | .lit _ :: rest => paramNamesOf rest
  | .par n :: rest => n :: paramNamesOf rest

/-- Whether the segment list has a parameter (the scanner's dynamic flag). -/
def hasPar : List Seg → Bool
  | [] => false
  | .lit _ :: rest => hasPar rest
  | .par _ :: _ => true

/-- Well-formedness for the round-trip claim: literals contain neither `/`
nor `:`, parameter names are nonempty and contain no `/`. -/
def segWf : Seg → Bool
  | .lit l => l.all (fun c => c ≠ '/' && c ≠ ':')
  | .par n => !n.isEmpty && n.all (fun c => c ≠ '/')

/-- All segments well-formed. -/
def segsWf (segs : List Seg) : Bool := segs.all segWf

/-- Strict well-formedness for the dispatch-equivalence claim: additionally,
literals contain no regex metacharacter (the client-side wildcard conversion
does not escape them). -/
def segWfStrict : Seg → Bool
  | .lit l => l.all (fun c => c ≠ '/' && c ≠ ':' && !isRegexSpecial c)
  | .par n => !n.isEmpty && n.all (fun c => c ≠ '/')

/-- All segments strictly well-formed. -/
def segsWfStrict (segs : List Seg) : Bool := segs.all segWfStrict

/-- The pattern core (between the anchors) `pathToRegex` emits for a
segment list. -/
def coreSeg : Seg → List Char
  | .lit l => escapeChars l
  | .par _ => groupChars

/-- Pattern core of a segment list. -/
def coreChars : List Seg → List Char
  | [] => []
  | s :: rest => '/' :: coreSeg s ++ coreChars rest

/-- The client-side wildcard conversion of a segment (no escaping). -/
def clientSeg : Seg → List Char
  | .lit l => l
  | .par _ => wildChars

/-- Client-side converted pattern of a segment list. -/
def clientChars : List Seg → List Char
  | [] => []
  | s :: rest => '/' :: clientSeg s ++ clientChars rest

/-- The concrete URL obtained by substituting every parameter by its value
under the valuation `vals`. -/
def urlChars (vals : List Char → List Char) : List Seg → List Char
  | [] => []
  | .lit l :: rest => '/' :: l ++ urlChars vals rest
  | .par n :: rest => '/' :: vals n ++ urlChars vals rest

/-- The substituted URL as a string. -/
def urlOf (segs : List Seg) (vals : List Char → List Char) : String :=
  ⟨urlChars vals segs⟩

/-- The regex tokens of a segment. -/
def segToks : Seg → List RToken
  | .lit l => l.map RToken.tlit
  | .par _ => [RToken.tgroup]

/-- The regex tokens of a segment list's pattern. -/
def tokensOf : List Seg → List RToken
  | [] => []
  | s :: rest => RToken.tlit '/' :: segToks s ++ tokensOf rest

/-- Consume a literal from the front of the input. -/
def dropLit : List Char → List Char → Option (List Char)
  | [], input => some input
  | _ :: _, [] => none
  | c :: cs, d :: ds => if c = d then dropLit cs ds else none

/-- Segment-level matching function: the reference semantics that both the
server pattern and the client wildcard pattern are proved to implement.
Parameter segments capture a maximal nonempty run of non-`/` characters. -/
def segsMatchOpt : List Seg → List Char → Option (List (List Char))
  | [], input => if input.isEmpty then some [] else none
  | _ :: _, [] => none
  | s :: rest, d :: ds =>
    if d = '/' then
      match s with
      | .lit l =>
        match dropLit l ds with
        | some ds2 => segsMatchOpt rest ds2
        | none => none
      | .par _ =>
        let v := ds.takeWhile (fun c => c ≠ '/')
        if v.isEmpty then none
        else (segsMatchOpt rest (ds.dropWhile (fun c => c ≠ '/'))).map
          (fun caps => v :: caps)
    else none

/-- The RouteEntry `generateRoutes` produces for a segment-modelled page
(component path irrelevant to matching). -/
def mkRouteEntry (segs : List Seg) : RouteEntry :=
  { path := routePathOf segs,
    componentPath := "",
    pattern := pathToRegex (routePathOf segs),
    paramNames := (paramNamesOf segs).map (fun n => String.mk n),
    isDynamic := hasPar segs,
    renderType := none }

/-- The corresponding client manifest entry. -/
def mkClientRoute (segs : List Seg) : ClientRoute :=
  { path := routePathOf segs,
    componentPath := "",
    isDynamic := hasPar segs,
    paramNames := (paramNamesOf segs).map (fun n => String.mk n) }

/-- Scenario C's segment list: `/blog/:category/:id`. -/
def c1Segs : List Seg := [Seg.lit "blog".data, Seg.par "category".data, Seg.par "id".data]

/-- Scenario C's parameter valuation: `category = tech`, `id = 1`. -/
def c1Vals : List Char → List Char := fun n =>
  if n = "category".data then "tech".data
  else if n = "id".data then "1".data
  else ['x']

/-! ## Association-map lemmas -/

theorem lookupPair_mapSet {α : Type} (l : List (String × α)) (k : String) (v : α) :
    lookupPair (mapSet l k v) k = some v := by
  induction l with
  | nil => simp [mapSet, lookupPair]
  | cons p t ih =>
    by_cases hp : p.1 = k
    · simp [mapSet, lookupPair, hp]
    · simpa [mapSet, lookupPair, hp] using ih

theorem lookupPair_mapDelete {α : Type} (l : List (String × α)) (k : String) :
    lookupPair (mapDelete l k) k = none := by
  induction l with
  | nil => simp [mapDelete, lookupPair]
  | cons p t ih =>
    by_cases hp : p.1 = k
    · simpa [mapDelete, hp] using ih
    · simpa [mapDelete, lookupPair, hp] using ih

/-! ## Replacement lemmas for the artifact-path claim -/

theorem replaceAllAux_of_countAux_zero (pat sub : List Char) :
    ∀ (fuel : Nat) (s : List Char), countAux pat fuel s = 0 →
      replaceAllAux pat sub fuel s = s := by
  intro fuel
  induction fuel with
  | zero => intro s _; cases s <;> rfl
  | succ n ih =>
    intro s hc
    cases s with
    | nil => rfl
    | cons c cs =>
      by_cases hp : (!pat.isEmpty && pat.isPrefixOf (c :: cs)) = true
      · rw [countAux, if_pos hp] at hc
        omega
      · rw [countAux, if_neg hp] at hc
        rw [replaceAllAux, if_neg hp, ih cs hc]

theorem replaceAllAux_eq_replaceFirst (pat sub : List Char) :
    ∀ (fuel : Nat) (s : List Char), s.length ≤ fuel → countAux pat fuel s ≤ 1 →
      replaceAllAux pat sub fuel s = replaceFirstSub pat sub s := by
  intro fuel
  induction fuel with
  | zero =>
    intro s hlen _
    have hnil : s = [] := List.length_eq_zero.mp (Nat.le_zero.mp hlen)
    subst hnil; rfl
  | succ n ih =>
    intro s hlen hc
    cases s with
    | nil => rfl
    | cons c cs =>
      by_cases hp : (!pat.isEmpty && pat.isPrefixOf (c :: cs)) = true
      · rw [replaceAllAux, if_pos hp, replaceFirstSub, if_pos hp]
        rw [countAux, if_pos hp] at hc
        have hz : countAux pat n ((c :: cs).drop pat.length) = 0 := by omega
        rw [replaceAllAux_of_countAux_zero pat sub n _ hz]
      · rw [replaceAllAux, if_neg hp, replaceFirstSub, if_neg hp]
        rw [countAux, if_neg hp] at hc
        have hlen2 : cs.length ≤ n := by simp at hlen; omega
        rw [ih cs hlen2 hc]

theorem replaceSub_eq_of_countSub_le_one (pat sub s : List Char)
    (h : countSub pat s ≤ 1) :
    replaceAllSub pat sub s = replaceFirstSub pat sub s :=
  replaceAllAux_eq_replaceFirst pat sub s.length s (Nat.le_refl _) h

theorem fold_first_eq_fold_all :
    ∀ (params : List (String × String)) (acc : List Char),
      stepsOk acc params = true →
      getStaticFilePathChars acc params = getOutputPathChars acc params := by
  intro params
  induction params with
  | nil => intro acc _; rfl
  | cons kv ps ih =>
    intro acc hok
    rw [stepsOk] at hok
    simp only [Bool.and_eq_true, decide_eq_true_eq] at hok
    obtain ⟨h1, h2⟩ := hok
    have hstep : replaceFirstSub (':' :: kv.1.data) kv.2.data acc =
        replaceAllSub (':' :: kv.1.data) kv.2.data acc :=
      (replaceSub_eq_of_countSub_le_one _ _ _ h1).symm
    simp only [getStaticFilePathChars, getOutputPathChars, List.foldl_cons]
    rw [hstep]
    simpa [getStaticFilePathChars, getOutputPathChars] using ih _ h2

theorem replaceAllSub_slash (k v : List Char) :
    replaceAllSub (':' :: k) v ['/'] = ['/'] := by
  simp [replaceAllSub, replaceAllAux, List.isPrefixOf]

theorem replaceFirstSub_slash (k v : List Char) :
    replaceFirstSub (':' :: k) v ['/'] = ['/'] := by
  simp [replaceFirstSub, List.isPrefixOf]

theorem getOutputPathChars_slash (params : List (String × String)) :
    getOutputPathChars ['/'] params = ['/'] := by
  induction params with
  | nil => rfl
  | cons kv ps ih =>
    simp only [getOutputPathChars, List.foldl_cons, replaceAllSub_slash]
    simpa [getOutputPathChars] using ih

theorem getStaticFilePathChars_slash (params : List (String × String)) :
    getStaticFilePathChars ['/'] params = ['/'] := by
  induction params with
  | nil => rfl
  | cons kv ps ih =>
    simp only [getStaticFilePathChars, List.foldl_cons, replaceFirstSub_slash]
    simpa [getStaticFilePathChars] using ih

/-! ## Claim C3 — artifact-path derivation at build vs. serve time -/

/-- **Counterexample to C3 as stated.** On the route path `/:id/:id` with the
single parameter `id = 1`, the build-time `getOutputPath` substitutes both
occurrences and yields `/1/1`, while the serve-time `getStaticFilePath`
substitutes only the first occurrence and yields `/1/:id` — the two artifact
paths differ, so the serve-time derivation is not the same function as the
build-time one and is not multiple-occurrence-safe. -/
theorem c3_counterexample :
    getOutputPath "/:id/:id" [("id", "1")] = "/1/1" ∧
    getStaticFilePath "/:id/:id" [("id", "1")] = "/1/:id" ∧
    getStaticFilePath "/:id/:id" [("id", "1")] ≠ getOutputPath "/:id/:id" [("id", "1")] := by
  refine ⟨by decide, by decide, by decide⟩

/-- **C3, amended.** `getOutputPath` substitutes all occurrences of each
`:name` placeholder but `getStaticFilePath` substitutes only the first; for
parameter maps whose names are free of regex metacharacters and whose values
are free of `$` (so both replacements act literally), the two derivations
agree whenever each substitution step meets at most one occurrence of its
placeholder (in particular on every route whose parameter names each occur
once); both map the root path `/` to `/index`. -/
theorem c3_artifact_path (routePath : String) (params : List (String × String))
    (_hlit : paramsLiteralOk params = true)
    (hok : stepsOk routePath.data params = true) :
    getStaticFilePath routePath params = getOutputPath routePath params ∧
    getOutputPath "/" params = "/index" ∧
    getStaticFilePath "/" params = "/index" := by
  refine ⟨?_, ?_, ?_⟩
  · simp only [getStaticFilePath, getOutputPath]
    rw [fold_first_eq_fold_all params routePath.data hok]
  · simp only [getOutputPath]
    rw [getOutputPathChars_slash]
    simp
  · simp only [getStaticFilePath]
    rw [getStaticFilePathChars_slash]
    simp

/-- Witness for the amended C3: on `/blog/:category/:id` with parameters
`category = tech`, `id = 1` both derivations produce the same artifact path,
and the root path maps to `/index`. -/
theorem c3_artifact_path_witness :
    getStaticFilePath "/blog/:category/:id" [("category", "tech"), ("id", "1")] =
      getOutputPath "/blog/:category/:id" [("category", "tech"), ("id", "1")] ∧
    getOutputPath "/" [("category", "tech"), ("id", "1")] = "/index" := by
  have h := c3_artifact_path "/blog/:category/:id" [("category", "tech"), ("id", "1")]
    (by decide) (by decide)
  exact ⟨h.1, h.2.1⟩

/-! ## Object-record lemmas and the `extractParams` characterization -/

theorem lookupObj_objSet_self (obj : List (String × String)) (k v : String) :
    lookupObj (objSet obj k v) k = some v := by
  induction obj with
  | nil => simp [objSet, lookupObj]
  | cons p t ih =>
    by_cases hp : p.1 = k
    · simp [objSet, lookupObj, hp]
    · simpa [objSet, lookupObj, hp] using ih

theorem lookupObj_objSet_other (obj : List (String × String)) (k v n : String)
    (h : n ≠ k) :
    lookupObj (objSet obj k v) n = lookupObj obj n := by
  have hkn : ¬(k = n) := fun e => h (Eq.symm e)
  induction obj with
  | nil => simp [objSet, lookupObj, hkn]
  | cons p t ih =>
    by_cases hp : p.1 = k
    · simp [objSet, lookupObj, hp, hkn]
    · by_cases hn : p.1 = n
      · simp [objSet, lookupObj, hp, hn, h]
      · simp [objSet, lookupObj, hp, hn, ih]

theorem objSet_keys (obj : List (String × String)) (k v : String)
    (h : k ∉ obj.map Prod.fst) :
    (objSet obj k v).map Prod.fst = obj.map Prod.fst ++ [k] := by
  induction obj with
  | nil => simp [objSet]
  | cons p t ih =>
    simp only [List.map_cons, List.mem_cons] at h
    push_neg at h
    have hp : ¬(p.1 = k) := fun e => h.1 (Eq.symm e)
    simp [objSet, hp, ih h.2]

theorem enumFrom_foldl_eq_epAux (capList : List (Option String)) (names : List String) :
    ∀ (i : Nat) (obj : List (String × String)),
      (names.enumFrom i).foldl
        (fun obj p => objSet obj p.2 ((capList.getD p.1 none).getD "")) obj =
      epAux capList i names obj := by
  induction names with
  | nil => intro i obj; rfl
  | cons n t ih => intro i obj; simpa [List.enumFrom, epAux] using ih (i + 1) _

theorem extractParams_eq_epAux (capList : List (Option String)) (names : List String) :
    extractParams capList names = epAux capList 0 names [] := by
  simpa [extractParams, List.enum] using enumFrom_foldl_eq_epAux capList names 0 []

theorem epAux_lookup_notMem (capList : List (Option String)) (names : List String) :
    ∀ (i : Nat) (obj : List (String × String)) (n : String), n ∉ names →
      lookupObj (epAux capList i names obj) n = lookupObj obj n := by
  induction names with
  | nil => intro i obj n _; rfl
  | cons m t ih =>
    intro i obj n hn
    simp only [List.mem_cons, not_or] at hn
    rw [epAux, ih _ _ _ hn.2, lookupObj_objSet_other _ _ _ _ hn.1]

theorem epAux_lookup_get (capList : List (Option String)) (names : List String) :
    ∀ (i : Nat) (obj : List (String × String)), names.Nodup →
      ∀ (j : Nat) (h : j < names.length),
        lookupObj (epAux capList i names obj) (names.get ⟨j, h⟩) =
          some ((capList.getD (i + j) none).getD "") := by
  induction names with
  | nil => intro i obj _ j h; simp at h
  | cons m t ih =>
    intro i obj hnd j h
    rcases List.nodup_cons.mp hnd with ⟨hm, ht⟩
    rw [epAux]
    cases j with
    | zero =>
      have hg : (m :: t).get ⟨0, h⟩ = m := rfl
      rw [hg, epAux_lookup_notMem capList t _ _ m hm, lookupObj_objSet_self]
      simp
    | succ j2 =>
      have hj2 : j2 < t.length := by simpa using h
      have hg : (m :: t).get ⟨j2 + 1, h⟩ = t.get ⟨j2, hj2⟩ := rfl
      rw [hg, ih (i + 1) _ ht j2 hj2]
      have harith : i + 1 + j2 = i + (j2 + 1) := by omega
      rw [harith]

theorem epAux_keys (capList : List (Option String)) (names : List String) :
    ∀ (i : Nat) (obj : List (String × String)), names.Nodup →
      (∀ n ∈ names, n ∉ obj.map Prod.fst) →
      (epAux capList i names obj).map Prod.fst = obj.map Prod.fst ++ names := by
  induction names with
  | nil => intro i obj _ _; simp [epAux]
  | cons m t ih =>
    intro i obj hnd hdisj
    rcases List.nodup_cons.mp hnd with ⟨hm, ht⟩
    rw [epAux, ih (i + 1) _ ht, objSet_keys _ _ _ (hdisj m (by simp))]
    · simp
    · intro n hn
      rw [objSet_keys _ _ _ (hdisj m (by simp))]
      simp only [List.mem_append, List.mem_singleton, not_or]
      exact ⟨hdisj n (by simp [hn]), fun e => hm (e ▸ hn)⟩

/-! ## Claim C10 — every successful match has a total parameter map -/

/-- **C10.** For a route whose `paramNames` are distinct, the parameter
record built by `extractParams` (the record a successful `matchRoute` carries)
has exactly the route's `paramNames` as keys, in order and without any other
key; the value for the name at position `j` is the capture of group `j + 1`,
and a name whose capture group is absent (index beyond the match array) or
`undefined` is mapped to the empty string rather than being omitted. -/
theorem c10_params_total (capList : List (Option String)) (names : List String)
    (hn : names.Nodup) :
    ((extractParams capList names).map Prod.fst = names) ∧
    (∀ j (h : j < names.length),
      lookupObj (extractParams capList names) (names.get ⟨j, h⟩) =
        some ((capList.getD j none).getD "")) ∧
    (∀ j (h : j < names.length), capList.getD j none = none →
      lookupObj (extractParams capList names) (names.get ⟨j, h⟩) = some "") := by
  rw [extractParams_eq_epAux]
  refine ⟨by simpa using epAux_keys capList names 0 [] hn (by simp), fun j h => ?_,
    fun j h habs => ?_⟩
  · simpa using epAux_lookup_get capList names 0 [] hn j h
  · have h2 := epAux_lookup_get capList names 0 [] hn j h
    rw [h2]
    simp only [Nat.zero_add, List.getD] at habs ⊢
    rw [habs]
    rfl

/-- Witness for C10: names `a`, `b` with a single capture — `a` is bound to
the capture, the absent group of `b` is mapped to the empty string, and the
record's keys are exactly `a`, `b`. -/
theorem c10_params_total_witness :
    (extractParams [some "v"] ["a", "b"]).map Prod.fst = ["a", "b"] ∧
    lookupObj (extractParams [some "v"] ["a", "b"]) "b" = some "" := by
  have h := c10_params_total [some "v"] ["a", "b"] (by decide)
  exact ⟨h.1, by simpa using h.2.2 1 (by decide) rfl⟩

/-! ## Claim C5 — matchRoute strips the query and returns the first match -/

theorem matchLoop_none_iff (routes : List RouteEntry) (p : String) :
    matchLoop routes p = none ↔ ∀ r ∈ routes, jsMatch r.pattern p = none := by
  induction routes with
  | nil => simp [matchLoop]
  | cons r t ih =>
    cases hm : jsMatch r.pattern p with
    | some caps => simp [matchLoop, hm]
    | none => simp [matchLoop, hm, ih]

theorem matchLoop_some (routes : List RouteEntry) (p : String) (m : MatchResult)
    (hm : matchLoop routes p = some m) :
    ∃ i, ∃ h : i < routes.length,
      routes.get ⟨i, h⟩ = m.route ∧
      (∃ caps, jsMatch m.route.pattern p = some caps ∧
        m.params = extractParams (caps.map some) m.route.paramNames) ∧
      ∀ j (hj : j < i), jsMatch (routes.get ⟨j, by omega⟩).pattern p = none := by
  induction routes with
  | nil => simp [matchLoop] at hm
  | cons r t ih =>
    cases hr : jsMatch r.pattern p with
    | some caps =>
      rw [matchLoop, hr] at hm
      have heq : (⟨r, extractParams (caps.map some) r.paramNames⟩ : MatchResult) = m :=
        Option.some.inj hm
      subst heq
      exact ⟨0, by simp, by simp, ⟨caps, hr, rfl⟩,
        fun j hj => absurd hj (Nat.not_lt_zero j)⟩
    | none =>
      rw [matchLoop, hr] at hm
      obtain ⟨i, h, hget, hcaps, hearlier⟩ := ih hm
      refine ⟨i + 1, by simpa using Nat.succ_lt_succ h, by simpa using hget, hcaps, ?_⟩
      intro j hj
      cases j with
      | zero => simpa using hr
      | succ j2 => simpa using hearlier j2 (by omega)

/-- **C5.** For every manifest and URL string, `matchRoute` strips the query
component (everything from the first `?`; an empty remainder is coerced to
`/`) and tests the resulting pathname against each entry's compiled pattern
in manifest order: it returns `none` exactly when no pattern matches, and
otherwise returns the first matching entry together with the parameters
extracted positionally (in `paramNames` order) from the capture groups,
every earlier entry having failed to match. -/
theorem c5_matchRoute_first_match (routes : List RouteEntry) (url : String) :
    (matchRoute routes url = none ↔
      ∀ r ∈ routes, jsMatch r.pattern (stripQuery url) = none) ∧
    (∀ m, matchRoute routes url = some m →
      ∃ i, ∃ h : i < routes.length,
        routes.get ⟨i, h⟩ = m.route ∧
        (∃ caps, jsMatch m.route.pattern (stripQuery url) = some caps ∧
          m.params = extractParams (caps.map some) m.route.paramNames) ∧
        ∀ j (hj : j < i),
          jsMatch (routes.get ⟨j, by omega⟩).pattern (stripQuery url) = none) :=
  ⟨matchLoop_none_iff routes (stripQuery url),
   fun m hm => matchLoop_some routes (stripQuery url) m hm⟩

/-- Witness for C5: `/blog/7?x=1` is matched — after query stripping — by the
second manifest entry with `id = 7`, the first entry having failed. -/
theorem c5_matchRoute_first_match_witness :
    ∃ i, ∃ h : i < c5Routes.length,
      c5Routes.get ⟨i, h⟩ =
        (⟨⟨"/blog/:id", "pages/blog/[id].jsx", pathToRegex "/blog/:id", ["id"], true,
           some "ssg"⟩, [("id", "7")]⟩ : MatchResult).route ∧
      (∃ caps, jsMatch (⟨⟨"/blog/:id", "pages/blog/[id].jsx", pathToRegex "/blog/:id",
          ["id"], true, some "ssg"⟩, [("id", "7")]⟩ : MatchResult).route.pattern
          (stripQuery "/blog/7?x=1") = some caps ∧
        (⟨⟨"/blog/:id", "pages/blog/[id].jsx", pathToRegex "/blog/:id", ["id"], true,
           some "ssg"⟩, [("id", "7")]⟩ : MatchResult).params =
          extractParams (caps.map some)
            (⟨⟨"/blog/:id", "pages/blog/[id].jsx", pathToRegex "/blog/:id", ["id"], true,
               some "ssg"⟩, [("id", "7")]⟩ : MatchResult).route.paramNames) ∧
      ∀ j (hj : j < i),
        jsMatch (c5Routes.get ⟨j, by omega⟩).pattern (stripQuery "/blog/7?x=1") = none :=
  (c5_matchRoute_first_match c5Routes "/blog/7?x=1").2
    ⟨⟨"/blog/:id", "pages/blog/[id].jsx", pathToRegex "/blog/:id", ["id"], true,
      some "ssg"⟩, [("id", "7")]⟩ (by decide)

/-! ## Claim C2 — render-mode resolution is total, first match wins -/

/-- **C2.** For every route and every capability combination of the page
module, `renderStaticPage` yields exactly one of the five documented
dispositions, in the documented precedence order: `getServerSideProps`
declines with `has-getServerSideProps` before anything else; a dynamic route
without `getStaticPaths` declines with `dynamic-no-paths`; a dynamic route
with `getStaticPaths` succeeds with type `ssg-dynamic` and a count equal to
the number of enumerated paths; a static route succeeds with type
`ssg-with-data` when `getStaticProps` is present and `ssg-pure` otherwise.
No input is left unresolved (the final disjunction is exhaustive). -/
theorem c2_render_mode_total (r : RouteEntry) (m : PageCaps) :
    (m.getServerSideProps = true →
      renderStaticPage r m = .declined "has-getServerSideProps") ∧
    (m.getServerSideProps = false → r.isDynamic = true → m.getStaticPaths = none →
      renderStaticPage r m = .declined "dynamic-no-paths") ∧
    (∀ paths, m.getServerSideProps = false → r.isDynamic = true →
      m.getStaticPaths = some paths →
      renderStaticPage r m = .ok paths.length "ssg-dynamic") ∧
    (m.getServerSideProps = false → r.isDynamic = false → m.getStaticProps = true →
      renderStaticPage r m = .ok 1 "ssg-with-data") ∧
    (m.getServerSideProps = false → r.isDynamic = false → m.getStaticProps = false →
      renderStaticPage r m = .ok 1 "ssg-pure") ∧
    (renderStaticPage r m = .declined "has-getServerSideProps" ∨
     renderStaticPage r m = .declined "dynamic-no-paths" ∨
     (∃ n, renderStaticPage r m = .ok n "ssg-dynamic") ∨
     renderStaticPage r m = .ok 1 "ssg-with-data" ∨
     renderStaticPage r m = .ok 1 "ssg-pure") := by
  cases hs : m.getServerSideProps <;> cases hd : r.isDynamic <;>
    cases hp : m.getStaticPaths <;> cases hq : m.getStaticProps <;>
    simp [renderStaticPage, hs, hd, hp, hq]

/-- Witness for C2: a dynamic route whose module enumerates two static paths
is resolved to `ssg-dynamic` with count 2. -/
theorem c2_render_mode_total_witness :
    renderStaticPage ⟨"/blog/:id", "pages/blog/[id].jsx", "a", ["id"], true, none⟩
      ⟨false, some [[("id", "1")], [("id", "2")]], false⟩ =
      RenderDisposition.ok 2 "ssg-dynamic" :=
  (c2_render_mode_total ⟨"/blog/:id", "pages/blog/[id].jsx", "a", ["id"], true, none⟩
      ⟨false, some [[("id", "1")], [("id", "2")]], false⟩).2.2.1
    [[("id", "1")], [("id", "2")]] rfl rfl rfl

/-! ## Claim C8 — renderType assignment is a frame-respecting effect -/

/-- **C8.** The per-route build loop assigns `renderType` exactly once per
route, after the disposition is known — `ssg` when the disposition is a
success and `ssr` otherwise — and leaves every other field of the RouteEntry
unchanged; the manifest keeps its length and order. -/
theorem c8_renderType_frame (routes : List RouteEntry) (caps : RouteEntry → PageCaps) :
    (buildLoop routes caps).length = routes.length ∧
    ∀ i (h : i < routes.length) (h2 : i < (buildLoop routes caps).length),
      ((buildLoop routes caps).get ⟨i, h2⟩).path = (routes.get ⟨i, h⟩).path ∧
      ((buildLoop routes caps).get ⟨i, h2⟩).componentPath = (routes.get ⟨i, h⟩).componentPath ∧
      ((buildLoop routes caps).get ⟨i, h2⟩).pattern = (routes.get ⟨i, h⟩).pattern ∧
      ((buildLoop routes caps).get ⟨i, h2⟩).paramNames = (routes.get ⟨i, h⟩).paramNames ∧
      ((buildLoop routes caps).get ⟨i, h2⟩).isDynamic = (routes.get ⟨i, h⟩).isDynamic ∧
      ((buildLoop routes caps).get ⟨i, h2⟩).renderType =
        some (if isSuccess (renderStaticPage (routes.get ⟨i, h⟩)
                (caps (routes.get ⟨i, h⟩))) then "ssg" else "ssr") := by
  refine ⟨by simp [buildLoop], fun i h h2 => ?_⟩
  simp only [buildLoop, List.get_eq_getElem, List.getElem_map]
  unfold applyRenderType
  split <;> rename_i hsplit <;> simp [hsplit]

/-- Witness for C8: a one-route manifest whose page exports
`getServerSideProps` keeps all descriptive fields and gets
`renderType = ssr`. -/
theorem c8_renderType_frame_witness :
    ((buildLoop [⟨"/", "pages/index.tsx", "b", [], false, none⟩]
        (fun _ => ⟨true, none, false⟩)).get ⟨0, by simp [buildLoop]⟩).renderType =
      some "ssr" := by
  have h := (c8_renderType_frame [⟨"/", "pages/index.tsx", "b", [], false, none⟩]
      (fun _ => ⟨true, none, false⟩)).2 0 (by simp) (by simp [buildLoop])
  simpa [renderStaticPage, isSuccess] using h.2.2.2.2.2

/-! ## Claim C6 — fetchPageData cache and coalescing semantics -/

/-- **C6.** For every URL: a cache hit with `force = false` returns the
cached data immediately and leaves the state (in particular the request log)
unchanged; a pending request for the same URL is joined — the same promise
is returned and no new request is issued (so two concurrent calls cause
exactly one network request and share one promise); a cold call issues
exactly one new request and records it as pending, so that a second call
before resolution returns that same promise without touching the request
log; resolution on success stores the result in the cache keyed by URL with
the timestamp and clears the pending entry; resolution on failure clears the
pending entry without adding a cache entry. -/
theorem c6_fetch_cache_coalescing (st : FetchState) (url : String)
    (d : PageData) (now : Nat) :
    (∀ c, lookupPair st.cache url = some c →
      fetchPageData st url false = (.value c.data, st)) ∧
    (∀ pid, lookupPair st.cache url = none →
      lookupPair st.pending url = some pid →
      fetchPageData st url false = (.promise pid, st)) ∧
    (∀ pid, lookupPair st.pending url = some pid →
      fetchPageData st url true = (.promise pid, st)) ∧
    (lookupPair st.cache url = none → lookupPair st.pending url = none →
      (fetchPageData st url false).1 = .promise st.nextId ∧
      (fetchPageData st url false).2.requestsIssued =
        st.requestsIssued ++ [(url, st.nextId)] ∧
      (fetchPageData st url false).2.cache = st.cache ∧
      fetchPageData (fetchPageData st url false).2 url false =
        (.promise st.nextId, (fetchPageData st url false).2)) ∧
    (lookupPair (resolveOk st url d now).cache url = some ⟨d, now⟩ ∧
     lookupPair (resolveOk st url d now).pending url = none) ∧
    ((resolveErr st url).cache = st.cache ∧
     lookupPair (resolveErr st url).pending url = none) := by
  refine ⟨fun c hc => by simp [fetchPageData, hc],
          fun pid hc hp => by simp [fetchPageData, hc, hp],
          fun pid hp => by simp [fetchPageData, hp],
          fun hc hp => ?_,
          ⟨lookupPair_mapSet _ _ _, lookupPair_mapDelete _ _⟩,
          ⟨rfl, lookupPair_mapDelete _ _⟩⟩
  refine ⟨by simp [fetchPageData, hc, hp], by simp [fetchPageData, hc, hp],
          by simp [fetchPageData, hc, hp], ?_⟩
  have hst : (fetchPageData st url false).2 =
      { st with pending := mapSet st.pending url st.nextId,
                nextId := st.nextId + 1,
                requestsIssued := st.requestsIssued ++ [(url, st.nextId)] } := by
    simp [fetchPageData, hc, hp]
  rw [hst]
  simp [fetchPageData, hc, lookupPair_mapSet]

/-- Witness for C6 (the coalescing scenario of the spec): from a cold state,
the first call issues request 0 and a second call before resolution returns
the same promise 0 without issuing another request. -/
theorem c6_fetch_cache_coalescing_witness :
    (fetchPageData ⟨[], [], 0, []⟩ "/about" false).1 = .promise 0 ∧
    (fetchPageData ⟨[], [], 0, []⟩ "/about" false).2.requestsIssued =
      [("/about", 0)] ∧
    fetchPageData (fetchPageData ⟨[], [], 0, []⟩ "/about" false).2 "/about" false =
      (.promise 0, (fetchPageData ⟨[], [], 0, []⟩ "/about" false).2) := by
  have h := (c6_fetch_cache_coalescing ⟨[], [], 0, []⟩ "/about" ⟨"p", none⟩ 0).2.2.2.1
    rfl rfl
  exact ⟨h.1, h.2.1, h.2.2.2⟩

/-! ## Claim C9 — push and replace never raise an uncaught error -/

/-- **C9.** For every starting state, URL and fetch outcome, neither `push`
nor `replace` lets an exception escape; on a fulfilled fetch they emit the
start event then the complete event carrying the fetched data, set
`pathname` to the URL and `query` to the data's query (defaulted to empty),
and perform exactly one history operation (`pushState` for push,
`replaceState` for replace); on a rejected fetch they emit the start event
then a `routeChangeError` event, leave the state unchanged and perform no
history operation. -/
theorem c9_nav_error_handling (st : NavState) (url : String) (f : FetchEnd) :
    (pushNav st url f).uncaught = false ∧
    (replaceNav st url f).uncaught = false ∧
    (∀ d, f = .ok d →
      pushNav st url f =
        ⟨[.start url, .complete url d], ⟨url, d.query.getD []⟩,
         [.pushState url], false⟩ ∧
      replaceNav st url f =
        ⟨[.start url, .complete url d], ⟨url, d.query.getD []⟩,
         [.replaceState url], false⟩) ∧
    (∀ e, f = .err e →
      pushNav st url f = ⟨[.start url, .error e url], st, [], false⟩ ∧
      replaceNav st url f = ⟨[.start url, .error e url], st, [], false⟩) := by
  cases f <;> simp [pushNav, replaceNav, navRun, navBody]

/-- Witness for C9: a failing fetch makes `push` emit the error event with
no state change, no history entry, and no escaping exception. -/
theorem c9_nav_error_handling_witness :
    pushNav ⟨"/", []⟩ "/about" (.err "boom") =
      ⟨[.start "/about", .error "boom" "/about"], ⟨"/", []⟩, [], false⟩ :=
  ((c9_nav_error_handling ⟨"/", []⟩ "/about" (.err "boom")).2.2.2 "boom" rfl).1

/-! ## Pattern-synthesis structure lemmas -/

theorem escapeChars_append (a b : List Char) :
    escapeChars (a ++ b) = escapeChars a ++ escapeChars b := by
  induction a with
  | nil => rfl
  | cons c cs ih => simp [escapeChars, ih]

theorem escapeChars_ne_nil (l : List Char) (h : l ≠ []) : escapeChars l ≠ [] := by
  cases l with
  | nil => exact absurd rfl h
  | cons c cs => by_cases hc : isRegexSpecial c <;> simp [escapeChars, hc]

theorem mem_escapeChars (l : List Char) (c : Char) (h : c ∈ escapeChars l) :
    c = '\\' ∨ c ∈ l := by
  induction l with
  | nil => simp [escapeChars] at h
  | cons d ds ih =>
    rw [escapeChars, List.mem_append] at h
    rcases h with h1 | h2
    · by_cases hd : isRegexSpecial d
      · rw [if_pos hd] at h1
        simp only [List.mem_cons, List.mem_singleton] at h1
        rcases h1 with h1 | h1 | h1
        · exact Or.inl h1
        · exact Or.inr (by simp [h1])
        · simp at h1
      · rw [if_neg hd] at h1
        simp only [List.mem_singleton] at h1
        exact Or.inr (by simp [h1])
    · rcases ih h2 with h3 | h3
      · exact Or.inl h3
      · exact Or.inr (List.mem_cons_of_mem _ h3)

theorem colonRunsAux_lit (out xs : List Char)
    (hx : ∀ c ∈ xs, c ≠ ':') (r : List Char) :
    colonRunsAux out false (xs ++ r) = xs ++ colonRunsAux out false r := by
  induction xs with
  | nil => rfl
  | cons c cs ih =>
    have hc : c ≠ ':' := hx c (by simp)
    have ih2 := ih (fun c2 h2 => hx c2 (by simp [h2]))
    rw [List.cons_append]
    simp [colonRunsAux, hc, ih2]

theorem colonRunsAux_skip (out xs : List Char)
    (hx : ∀ c ∈ xs, c ≠ '/') (r : List Char) :
    colonRunsAux out true (xs ++ r) = colonRunsAux out true r := by
  induction xs with
  | nil => rfl
  | cons c cs ih =>
    have hc : c ≠ '/' := hx c (by simp)
    rw [List.cons_append, colonRunsAux, if_neg hc]
    exact ih (fun c2 h2 => hx c2 (by simp [h2]))

theorem colonRunsAux_true_eq_false (out r : List Char)
    (hr : r = [] ∨ ∃ t, r = '/' :: t) :
    colonRunsAux out true r = colonRunsAux out false r := by
  rcases hr with h | ⟨t, h⟩ <;> subst h <;> simp [colonRunsAux]

theorem colonRunsAux_par (out n r : List Char)
    (hn : n ≠ []) (hslash : ∀ c ∈ n, c ≠ '/')
    (hr : r = [] ∨ ∃ t, r = '/' :: t) :
    colonRunsAux out false (':' :: n ++ r) = out ++ colonRunsAux out false r := by
  cases n with
  | nil => exact absurd rfl hn
  | cons d ds =>
    have hd : d ≠ '/' := hslash d (by simp)
    show colonRunsAux out false (':' :: (d :: (ds ++ r))) = _
    rw [colonRunsAux]
    simp only [reduceIte]
    rw [if_neg hd]
    rw [show d :: (ds ++ r) = (d :: ds) ++ r from rfl,
      colonRunsAux_skip out (d :: ds) hslash r, colonRunsAux_true_eq_false out r hr]

theorem escape_pathChars_shape (rest : List Seg) :
    escapeChars (pathChars rest) = [] ∨
      ∃ t, escapeChars (pathChars rest) = '/' :: t := by
  cases rest with
  | nil => exact Or.inl rfl
  | cons s r2 => exact Or.inr ⟨_, rfl⟩

theorem pathChars_shape (rest : List Seg) :
    pathChars rest = [] ∨ ∃ t, pathChars rest = '/' :: t := by
  cases rest with
  | nil => exact Or.inl rfl
  | cons s r2 => exact Or.inr ⟨_, rfl⟩

theorem coreChars_eq (segs : List Seg) (hw : segsWf segs = true) :
    colonRunsAux groupChars false (escapeChars (pathChars segs)) = coreChars segs := by
  induction segs with
  | nil => rfl
  | cons s rest ih =>
    rw [segsWf, List.all_cons, Bool.and_eq_true] at hw
    obtain ⟨hs, hrest⟩ := hw
    have ih2 := ih hrest
    cases s with
    | lit l =>
      rw [segWf] at hs
      simp only [List.all_eq_true, Bool.and_eq_true, decide_eq_true_eq] at hs
      have e1 : escapeChars (pathChars (Seg.lit l :: rest)) =
          '/' :: (escapeChars l ++ escapeChars (pathChars rest)) := by
        show escapeChars ('/' :: (l ++ pathChars rest)) = _
        rw [show escapeChars ('/' :: (l ++ pathChars rest)) =
          '/' :: escapeChars (l ++ pathChars rest) from rfl, escapeChars_append]
      rw [e1]
      rw [show colonRunsAux groupChars false
          ('/' :: (escapeChars l ++ escapeChars (pathChars rest))) =
          '/' :: colonRunsAux groupChars false
            (escapeChars l ++ escapeChars (pathChars rest)) from rfl]
      rw [colonRunsAux_lit groupChars (escapeChars l)
        (fun c hc => by
          rcases mem_escapeChars l c hc with h | h
          · rw [h]; decide
          · exact (hs c h).2) (escapeChars (pathChars rest))]
      rw [ih2]
      rfl
    | par n =>
      rw [segWf] at hs
      simp only [Bool.and_eq_true, Bool.not_eq_true', List.isEmpty_eq_false,
        List.all_eq_true, decide_eq_true_eq] at hs
      obtain ⟨hne, hslash⟩ := hs
      have e1 : escapeChars (pathChars (Seg.par n :: rest)) =
          '/' :: (':' :: escapeChars n ++ escapeChars (pathChars rest)) := by
        show escapeChars ('/' :: ((':' :: n) ++ pathChars rest)) = _
        rw [show escapeChars ('/' :: ((':' :: n) ++ pathChars rest)) =
          '/' :: escapeChars ((':' :: n) ++ pathChars rest) from rfl, escapeChars_append]
        rw [show escapeChars (':' :: n) = ':' :: escapeChars n from rfl]
      rw [e1]
      rw [show colonRunsAux groupChars false
          ('/' :: (':' :: escapeChars n ++ escapeChars (pathChars rest))) =
          '/' :: colonRunsAux groupChars false
            (':' :: escapeChars n ++ escapeChars (pathChars rest)) from rfl]
      rw [colonRunsAux_par groupChars (escapeChars n) (escapeChars (pathChars rest))
        (escapeChars_ne_nil n hne)
        (fun c hc => by
          rcases mem_escapeChars n c hc with h | h
          · rw [h]; decide
          · exact hslash c h)
        (escape_pathChars_shape rest)]
      rw [ih2]
      rfl

theorem clientChars_eq (segs : List Seg) (hw : segsWfStrict segs = true) :
    colonRunsAux wildChars false (pathChars segs) = clientChars segs := by
  induction segs with
  | nil => rfl
  | cons s rest ih =>
    rw [segsWfStrict, List.all_cons, Bool.and_eq_true] at hw
    obtain ⟨hs, hrest⟩ := hw
    have ih2 := ih hrest
    cases s with
    | lit l =>
      rw [segWfStrict] at hs
      simp only [List.all_eq_true, Bool.and_eq_true, decide_eq_true_eq] at hs
      rw [show pathChars (Seg.lit l :: rest) = '/' :: (l ++ pathChars rest) from rfl]
      rw [show colonRunsAux wildChars false ('/' :: (l ++ pathChars rest)) =
        '/' :: colonRunsAux wildChars false (l ++ pathChars rest) from rfl]
      rw [colonRunsAux_lit wildChars l (fun c hc => (hs c hc).1.2) (pathChars rest)]
      rw [ih2]
      rfl
    | par n =>
      rw [segWfStrict] at hs
      simp only [Bool.and_eq_true, Bool.not_eq_true', List.isEmpty_eq_false,
        List.all_eq_true, decide_eq_true_eq] at hs
      obtain ⟨hne, hslash⟩ := hs
      rw [show pathChars (Seg.par n :: rest) = '/' :: ((':' :: n) ++ pathChars rest)
        from rfl]
      rw [show colonRunsAux wildChars false ('/' :: ((':' :: n) ++ pathChars rest)) =
        '/' :: colonRunsAux wildChars false ((':' :: n) ++ pathChars rest) from rfl]
      rw [show (':' :: n) ++ pathChars rest = ':' :: n ++ pathChars rest from rfl]
      rw [colonRunsAux_par wildChars n (pathChars rest) hne hslash (pathChars_shape rest)]
      rw [ih2]
      rfl

/-! ## Lexer lemmas -/

theorem lexAux_cons_other (fuel : Nat) (c : Char) (cs : List Char)
    (h : c ≠ '\\') (h2 : ¬(c = '(' ∧ cs.take 6 = ['[', '^', '/', ']', '+', ')'])) :
    lexAux (fuel + 1) (c :: cs) = .tlit c :: lexAux fuel cs := by
  rw [lexAux.eq_def]
  simp only [h, h2, if_neg, ite_false, if_false]

theorem lexAux_cons_escape (fuel : Nat) (d : Char) (ds : List Char) :
    lexAux (fuel + 1) ('\\' :: d :: ds) = .tlit d :: lexAux fuel ds := by
  rw [lexAux.eq_def]
  simp

theorem lexAux_cons_group (n : Nat) (r : List Char) :
    lexAux (n + 1) (groupChars ++ r) = .tgroup :: lexAux n r := by
  rw [show groupChars ++ r = '(' :: (['[', '^', '/', ']', '+', ')'] ++ r) from rfl]
  rw [lexAux.eq_def]
  simp

theorem lexAux_fuel (f1 : Nat) :
    ∀ (f2 : Nat) (l : List Char), l.length ≤ f1 → l.length ≤ f2 →
      lexAux f1 l = lexAux f2 l := by
  induction f1 with
  | zero =>
    intro f2 l h1 _
    have hnil : l = [] := List.length_eq_zero.mp (Nat.le_zero.mp h1)
    subst hnil
    cases f2 <;> rfl
  | succ n ih =>
    intro f2 l h1 h2
    cases l with
    | nil => cases f2 <;> rfl
    | cons c cs =>
      cases f2 with
      | zero => simp at h2
      | succ m =>
        by_cases hc : c = '\\'
        · subst hc
          cases cs with
          | nil => rfl
          | cons d ds =>
            rw [lexAux_cons_escape n d ds, lexAux_cons_escape m d ds]
            have hn : ds.length ≤ n := by simp at h1; omega
            have hm : ds.length ≤ m := by simp at h2; omega
            rw [ih m ds hn hm]
        · by_cases hg : c = '(' ∧ cs.take 6 = ['[', '^', '/', ']', '+', ')']
          · have e1 : lexAux (n + 1) (c :: cs) = .tgroup :: lexAux n (cs.drop 6) := by
              rw [lexAux.eq_def]; simp [hc, hg.1, hg.2]
            have e2 : lexAux (m + 1) (c :: cs) = .tgroup :: lexAux m (cs.drop 6) := by
              rw [lexAux.eq_def]; simp [hc, hg.1, hg.2]
            have hn : (cs.drop 6).length ≤ n := by
              rw [List.length_drop]; simp at h1; omega
            have hm : (cs.drop 6).length ≤ m := by
              rw [List.length_drop]; simp at h2; omega
            rw [e1, e2, ih m _ hn hm]
          · rw [lexAux_cons_other n c cs hc hg, lexAux_cons_other m c cs hc hg,
              ih m cs (by simp at h1; omega) (by simp at h2; omega)]

theorem lexPattern_slash (r : List Char) :
    lexPattern ('/' :: r) = .tlit '/' :: lexPattern r := by
  show lexAux ('/' :: r).length ('/' :: r) = _
  rw [show ('/' :: r : List Char).length = r.length + 1 from rfl,
    lexAux_cons_other r.length '/' r (by decide) (by simp)]
  rfl

theorem lexPattern_escaped_lit (l r : List Char) :
    lexPattern (escapeChars l ++ r) = l.map RToken.tlit ++ lexPattern r := by
  induction l with
  | nil => simp [escapeChars]
  | cons c cs ih =>
    by_cases hc : isRegexSpecial c
    · have he : escapeChars (c :: cs) ++ r = '\\' :: c :: (escapeChars cs ++ r) := by
        simp [escapeChars, hc]
      rw [he]
      show lexAux ('\\' :: c :: (escapeChars cs ++ r)).length _ = _
      rw [show ('\\' :: c :: (escapeChars cs ++ r) : List Char).length =
        ((escapeChars cs ++ r).length + 1) + 1 from rfl]
      rw [lexAux_cons_escape ((escapeChars cs ++ r).length + 1) c (escapeChars cs ++ r)]
      rw [lexAux_fuel ((escapeChars cs ++ r).length + 1) (escapeChars cs ++ r).length
        (escapeChars cs ++ r) (by omega) (Nat.le_refl _)]
      rw [show lexAux (escapeChars cs ++ r).length (escapeChars cs ++ r) =
        lexPattern (escapeChars cs ++ r) from rfl, ih]
      rfl
    · have hc1 : c ≠ '\\' := fun e => hc (by rw [e]; decide)
      have hc2 : ¬(c = '(' ∧ (escapeChars cs ++ r).take 6 = ['[', '^', '/', ']', '+', ')']) :=
        fun hpair => hc (by rw [hpair.1]; decide)
      have he : escapeChars (c :: cs) ++ r = c :: (escapeChars cs ++ r) := by
        simp [escapeChars, hc]
      rw [he]
      show lexAux (c :: (escapeChars cs ++ r)).length _ = _
      rw [show (c :: (escapeChars cs ++ r) : List Char).length =
        (escapeChars cs ++ r).length + 1 from rfl,
        lexAux_cons_other _ c _ hc1 hc2]
      rw [show lexAux (escapeChars cs ++ r).length (escapeChars cs ++ r) =
        lexPattern (escapeChars cs ++ r) from rfl, ih]
      rfl

theorem lexPattern_group (r : List Char) :
    lexPattern (groupChars ++ r) = .tgroup :: lexPattern r := by
  show lexAux (groupChars ++ r).length _ = _
  rw [show (groupChars ++ r : List Char).length = (r.length + 6) + 1 from by
    simp [groupChars]]
  rw [lexAux_cons_group (r.length + 6) r]
  rw [lexAux_fuel (r.length + 6) r.length r (by omega) (Nat.le_refl _)]
  rfl

theorem lexCAux_cons_other (fuel : Nat) (c : Char) (cs : List Char)
    (h2 : ¬(c = '[' ∧ cs.take 4 = ['^', '/', ']', '+'])) :
    lexCAux (fuel + 1) (c :: cs) = .tlit c :: lexCAux fuel cs := by
  rw [lexCAux.eq_def]
  simp only [h2, if_neg, ite_false, if_false]

theorem lexCAux_cons_group (n : Nat) (r : List Char) :
    lexCAux (n + 1) (wildChars ++ r) = .tgroup :: lexCAux n r := by
  rw [show wildChars ++ r = '[' :: (['^', '/', ']', '+'] ++ r) from rfl]
  rw [lexCAux.eq_def]
  simp

theorem lexCAux_fuel (f1 : Nat) :
    ∀ (f2 : Nat) (l : List Char), l.length ≤ f1 → l.length ≤ f2 →
      lexCAux f1 l = lexCAux f2 l := by
  induction f1 with
  | zero =>
    intro f2 l h1 _
    have hnil : l = [] := List.length_eq_zero.mp (Nat.le_zero.mp h1)
    subst hnil
    cases f2 <;> rfl
  | succ n ih =>
    intro f2 l h1 h2
    cases l with
    | nil => cases f2 <;> rfl
    | cons c cs =>
      cases f2 with
      | zero => simp at h2
      | succ m =>
        by_cases hg : c = '[' ∧ cs.take 4 = ['^', '/', ']', '+']
        · have e1 : lexCAux (n + 1) (c :: cs) = .tgroup :: lexCAux n (cs.drop 4) := by
            rw [lexCAux.eq_def]; simp [hg.1, hg.2]
          have e2 : lexCAux (m + 1) (c :: cs) = .tgroup :: lexCAux m (cs.drop 4) := by
            rw [lexCAux.eq_def]; simp [hg.1, hg.2]
          have hn : (cs.drop 4).length ≤ n := by
            rw [List.length_drop]; simp at h1; omega
          have hm : (cs.drop 4).length ≤ m := by
            rw [List.length_drop]; simp at h2; omega
          rw [e1, e2, ih m _ hn hm]
        · rw [lexCAux_cons_other n c cs hg, lexCAux_cons_other m c cs hg,
            ih m cs (by simp at h1; omega) (by simp at h2; omega)]

theorem lexClient_slash (r : List Char) :
    lexClient ('/' :: r) = .tlit '/' :: lexClient r := by
  show lexCAux ('/' :: r).length ('/' :: r) = _
  rw [show ('/' :: r : List Char).length = r.length + 1 from rfl,
    lexCAux_cons_other r.length '/' r (by simp)]
  rfl

theorem lexClient_lit (l : List Char) (hl : ∀ c ∈ l, c ≠ '[') (r : List Char) :
    lexClient (l ++ r) = l.map RToken.tlit ++ lexClient r := by
  induction l with
  | nil => simp
  | cons c cs ih =>
    have hc : c ≠ '[' := hl c (by simp)
    have hc2 : ¬(c = '[' ∧ (cs ++ r).take 4 = ['^', '/', ']', '+']) :=
      fun hpair => hc hpair.1
    have ih2 := ih (fun x hx => hl x (by simp [hx]))
    rw [List.cons_append]
    show lexCAux (c :: (cs ++ r)).length (c :: (cs ++ r)) = _
    rw [show (c :: (cs ++ r) : List Char).length = (cs ++ r).length + 1 from rfl,
      lexCAux_cons_other _ c _ hc2]
    rw [show lexCAux (cs ++ r).length (cs ++ r) = lexClient (cs ++ r) from rfl, ih2]
    rfl

theorem lexClient_group (r : List Char) :
    lexClient (wildChars ++ r) = .tgroup :: lexClient r := by
  show lexCAux (wildChars ++ r).length _ = _
  rw [show (wildChars ++ r : List Char).length = (r.length + 4) + 1 from by
    simp [wildChars]]
  rw [lexCAux_cons_group (r.length + 4) r]
  rw [lexCAux_fuel (r.length + 4) r.length r (by omega) (Nat.le_refl _)]
  rfl

/-! ## Matcher lemmas -/

theorem dropLit_append (l r : List Char) : dropLit l (l ++ r) = some r := by
  induction l with
  | nil => rfl
  | cons c cs ih => simp [dropLit, ih]

theorem dropLit_some (l : List Char) :
    ∀ (input r : List Char), dropLit l input = some r → input = l ++ r := by
  induction l with
  | nil =>
    intro input r h
    rw [dropLit] at h
    simpa using Option.some.inj h
  | cons c cs ih =>
    intro input r h
    cases input with
    | nil => exact absurd h (by rw [dropLit]; simp)
    | cons d ds =>
      rw [dropLit] at h
      by_cases hc : c = d
      · rw [if_pos hc] at h
        have h2 := ih ds r h
        rw [hc, h2]
        rfl
      · rw [if_neg hc] at h
        exact absurd h (by simp)

theorem takeWhile_eq_nil_dropWhile {α : Type} (p : α → Bool) (l : List α)
    (h : l.takeWhile p = []) : l.dropWhile p = l := by
  cases l with
  | nil => rfl
  | cons a t =>
    rw [List.takeWhile_cons] at h
    by_cases hp : p a
    · simp [hp] at h
    · rw [List.dropWhile_cons, if_neg (by simpa using hp)]

theorem splitsAsc_shape (input : List Char) :
    ∀ s ∈ splitsAsc input,
      s = (input.takeWhile (fun c => c ≠ '/'), input.dropWhile (fun c => c ≠ '/')) ∨
        ∃ d t, s.2 = d :: t ∧ d ≠ '/' := by
  induction input with
  | nil => simp [splitsAsc]
  | cons d ds ih =>
    intro s hs
    rw [splitsAsc] at hs
    by_cases hd : d = '/'
    · rw [if_pos hd] at hs; simp at hs
    · rw [if_neg hd] at hs
      rcases List.mem_cons.mp hs with h1 | h2
      · subst h1
        cases hds : ds with
        | nil =>
          left
          simp [List.takeWhile_cons, List.dropWhile_cons, hd]
        | cons e es =>
          by_cases he : e = '/'
          · left
            rw [List.takeWhile_cons, List.dropWhile_cons]
            simp [hd, he, hds, List.takeWhile_cons, List.dropWhile_cons]
          · right
            exact ⟨e, es, by simp [hds], he⟩
      · obtain ⟨s2, hs2, heq⟩ := List.mem_map.mp h2
        rcases ih s2 hs2 with h3 | ⟨e, t, h3, he⟩
        · left
          rw [← heq, h3]
          rw [List.takeWhile_cons, List.dropWhile_cons]
          simp [hd]
        · right
          refine ⟨e, t, ?_, he⟩
          rw [← heq]
          exact h3

theorem splitsAsc_mem_max (input : List Char)
    (h : input.takeWhile (fun c => c ≠ '/') ≠ []) :
    (input.takeWhile (fun c => c ≠ '/'), input.dropWhile (fun c => c ≠ '/')) ∈
      splitsAsc input := by
  induction input with
  | nil => simp at h
  | cons d ds ih =>
    by_cases hd : d = '/'
    · rw [List.takeWhile_cons] at h
      simp [hd] at h
    · rw [splitsAsc, if_neg hd]
      have htw : (d :: ds).takeWhile (fun c => c ≠ '/') =
          d :: ds.takeWhile (fun c => c ≠ '/') := by
        rw [List.takeWhile_cons]; simp [hd]
      have hdw : (d :: ds).dropWhile (fun c => c ≠ '/') =
          ds.dropWhile (fun c => c ≠ '/') := by
        rw [List.dropWhile_cons]; simp [hd]
      rw [htw, hdw]
      by_cases hds : ds.takeWhile (fun c => c ≠ '/') = []
      · have hdw2 : ds.dropWhile (fun c => c ≠ '/') = ds :=
          takeWhile_eq_nil_dropWhile _ ds hds
        rw [hds, hdw2]
        exact List.mem_cons_self _ _
      · exact List.mem_cons_of_mem _ (List.mem_map.mpr ⟨_, ih hds, rfl⟩)

theorem findSome?_all_none {α β : Type} (g : α → Option β) (l : List α)
    (h : ∀ x ∈ l, g x = none) : l.findSome? g = none := by
  induction l with
  | nil => rfl
  | cons a t ih =>
    rw [List.findSome?_cons, h a (by simp)]
    exact ih (fun x hx => h x (by simp [hx]))

theorem findSome?_unique {α β : Type} [DecidableEq α] (g : α → Option β)
    (l : List α) (a : α) (ha : a ∈ l)
    (hu : ∀ x ∈ l, x ≠ a → g x = none) : l.findSome? g = g a := by
  induction l with
  | nil => simp at ha
  | cons b t ih =>
    by_cases hb : b = a
    · subst hb
      cases hg : g b with
      | some v => rw [List.findSome?_cons, hg]
      | none =>
        rw [List.findSome?_cons, hg]
        show List.findSome? g t = none
        exact findSome?_all_none g t (fun x hx => by
          by_cases hxa : x = b
          · rw [hxa]; exact hg
          · exact hu x (List.mem_cons_of_mem _ hx) hxa)
    · rw [List.findSome?_cons, hu b (by simp) hb]
      have ha2 : a ∈ t := by
        rcases List.mem_cons.mp ha with h1 | h1
        · exact absurd h1.symm hb
        · exact h1
      exact ih ha2 (fun x hx hxa => hu x (List.mem_cons_of_mem _ hx) hxa)

theorem matchToks_lit (l : List Char) (ts : List RToken) :
    ∀ input : List Char,
      matchToks (l.map RToken.tlit ++ ts) input =
        (match dropLit l input with
         | some r => matchToks ts r
         | none => none) := by
  induction l with
  | nil => intro input; rfl
  | cons c cs ih =>
    intro input
    cases input with
    | nil => rfl
    | cons d ds =>
      by_cases hcd : c = d
      · rw [show (c :: cs).map RToken.tlit ++ ts =
          RToken.tlit c :: (cs.map RToken.tlit ++ ts) from rfl]
        rw [show matchToks (RToken.tlit c :: (cs.map RToken.tlit ++ ts)) (d :: ds) =
          (if c = d then matchToks (cs.map RToken.tlit ++ ts) ds else none) from rfl]
        rw [if_pos hcd, ih ds]
        rw [show dropLit (c :: cs) (d :: ds) =
          (if c = d then dropLit cs ds else none) from rfl, if_pos hcd]
      · rw [show (c :: cs).map RToken.tlit ++ ts =
          RToken.tlit c :: (cs.map RToken.tlit ++ ts) from rfl]
        rw [show matchToks (RToken.tlit c :: (cs.map RToken.tlit ++ ts)) (d :: ds) =
          (if c = d then matchToks (cs.map RToken.tlit ++ ts) ds else none) from rfl]
        rw [if_neg hcd]
        rw [show dropLit (c :: cs) (d :: ds) =
          (if c = d then dropLit cs ds else none) from rfl, if_neg hcd]

theorem matchToks_group (ts : List RToken) (input : List Char)
    (hts : ts = [] ∨ ∃ t, ts = RToken.tlit '/' :: t) :
    matchToks (RToken.tgroup :: ts) input =
      (if (input.takeWhile (fun c => c ≠ '/')).isEmpty then none
       else (matchToks ts (input.dropWhile (fun c => c ≠ '/'))).map
         (fun caps => input.takeWhile (fun c => c ≠ '/') :: caps)) := by
  rw [show matchToks (RToken.tgroup :: ts) input =
    (splitsDesc input).findSome?
      (fun s => (matchToks ts s.2).map (fun caps => s.1 :: caps)) from rfl]
  have hnone : ∀ d (t : List Char), d ≠ '/' → matchToks ts (d :: t) = none := by
    intro d t hd
    rcases hts with hnil | ⟨t2, hcons⟩
    · subst hnil
      rw [show matchToks ([] : List RToken) (d :: t) =
        (if (d :: t : List Char).isEmpty then some [] else none) from rfl]
      simp
    · subst hcons
      rw [show matchToks (RToken.tlit '/' :: t2) (d :: t) =
        (if '/' = d then matchToks t2 t else none) from rfl]
      exact if_neg (fun e => hd e.symm)
  by_cases hemp : input.takeWhile (fun c => c ≠ '/') = []
  · have hsplit : splitsAsc input = [] := by
      cases input with
      | nil => rfl
      | cons d ds =>
        rw [List.takeWhile_cons] at hemp
        by_cases hd : d = '/'
        · rw [splitsAsc, if_pos hd]
        · simp [hd] at hemp
    rw [splitsDesc, hsplit, hemp]
    rfl
  · have hmem : (input.takeWhile (fun c => c ≠ '/'),
        input.dropWhile (fun c => c ≠ '/')) ∈ splitsDesc input := by
      rw [splitsDesc]
      exact List.mem_reverse.mpr (splitsAsc_mem_max input hemp)
    rw [findSome?_unique _ (splitsDesc input) _ hmem ?uniq]
    case uniq =>
      intro x hx hxne
      have hx2 : x ∈ splitsAsc input := by
        rw [splitsDesc] at hx
        exact List.mem_reverse.mp hx
      rcases splitsAsc_shape input x hx2 with h1 | ⟨d, t, h2, hd⟩
      · exact absurd h1 hxne
      · rw [h2, hnone d t hd]
        rfl
    rw [if_neg (by simpa using hemp)]

theorem tokensOf_shape (rest : List Seg) :
    tokensOf rest = [] ∨ ∃ t, tokensOf rest = RToken.tlit '/' :: t := by
  cases rest with
  | nil => exact Or.inl rfl
  | cons s r2 => exact Or.inr ⟨_, rfl⟩

theorem matchToks_tokensOf (segs : List Seg) :
    ∀ input : List Char, matchToks (tokensOf segs) input = segsMatchOpt segs input := by
  induction segs with
  | nil => intro input; rfl
  | cons s rest ih =>
    intro input
    cases input with
    | nil => rfl
    | cons d ds =>
      by_cases hd : d = '/'
      · subst hd
        have hL : matchToks (tokensOf (s :: rest)) ('/' :: ds) =
            matchToks (segToks s ++ tokensOf rest) ds := by
          rw [show matchToks (tokensOf (s :: rest)) ('/' :: ds) =
            (if '/' = '/' then matchToks (segToks s ++ tokensOf rest) ds else none)
            from rfl, if_pos rfl]
        rw [hL]
        cases s with
        | lit l =>
          rw [show segToks (Seg.lit l) ++ tokensOf rest =
            l.map RToken.tlit ++ tokensOf rest from rfl]
          rw [matchToks_lit l (tokensOf rest) ds]
          rw [show segsMatchOpt (Seg.lit l :: rest) ('/' :: ds) =
            (match dropLit l ds with
             | some ds2 => segsMatchOpt rest ds2
             | none => none) from rfl]
          cases hdl : dropLit l ds with
          | some ds2 => simp only [hdl]; exact ih ds2
          | none => simp only [hdl]
        | par n =>
          rw [show segToks (Seg.par n) ++ tokensOf rest =
            RToken.tgroup :: tokensOf rest from rfl]
          rw [matchToks_group (tokensOf rest) ds (tokensOf_shape rest)]
          rw [show segsMatchOpt (Seg.par n :: rest) ('/' :: ds) =
            (if (ds.takeWhile (fun c => c ≠ '/')).isEmpty then none
             else (segsMatchOpt rest (ds.dropWhile (fun c => c ≠ '/'))).map
               (fun caps => ds.takeWhile (fun c => c ≠ '/') :: caps)) from rfl]
          rw [ih]
      · have hL : matchToks (tokensOf (s :: rest)) (d :: ds) = none := by
          rw [show matchToks (tokensOf (s :: rest)) (d :: ds) =
            (if '/' = d then matchToks (segToks s ++ tokensOf rest) ds else none)
            from rfl]
          exact if_neg (fun e => hd e.symm)
        have hR : segsMatchOpt (s :: rest) (d :: ds) = none := by
          cases s with
          | lit l =>
            rw [show segsMatchOpt (Seg.lit l :: rest) (d :: ds) =
              (if d = '/' then
                (match dropLit l ds with
                 | some ds2 => segsMatchOpt rest ds2
                 | none => none)
               else none) from rfl]
            exact if_neg hd
          | par n =>
            rw [show segsMatchOpt (Seg.par n :: rest) (d :: ds) =
              (if d = '/' then
                (if (ds.takeWhile (fun c => c ≠ '/')).isEmpty then none
                 else (segsMatchOpt rest (ds.dropWhile (fun c => c ≠ '/'))).map
                   (fun caps => ds.takeWhile (fun c => c ≠ '/') :: caps))
               else none) from rfl]
            exact if_neg hd
        rw [hL, hR]

theorem lexPattern_coreChars (segs : List Seg) :
    lexPattern (coreChars segs) = tokensOf segs := by
  induction segs with
  | nil => rfl
  | cons s rest ih =>
    cases s with
    | lit l =>
      rw [show coreChars (Seg.lit l :: rest) =
        '/' :: (escapeChars l ++ coreChars rest) from rfl,
        lexPattern_slash, lexPattern_escaped_lit, ih]
      rfl
    | par n =>
      rw [show coreChars (Seg.par n :: rest) =
        '/' :: (groupChars ++ coreChars rest) from rfl,
        lexPattern_slash, lexPattern_group, ih]
      rfl

theorem lexClient_clientChars (segs : List Seg) (hw : segsWfStrict segs = true) :
    lexClient (clientChars segs) = tokensOf segs := by
  induction segs with
  | nil => rfl
  | cons s rest ih =>
    rw [segsWfStrict, List.all_cons, Bool.and_eq_true] at hw
    obtain ⟨hs, hrest⟩ := hw
    have ih2 := ih hrest
    cases s with
    | lit l =>
      rw [segWfStrict] at hs
      simp only [List.all_eq_true, Bool.and_eq_true, decide_eq_true_eq,
        Bool.not_eq_true'] at hs
      have hl : ∀ c ∈ l, c ≠ '[' := by
        intro c hc e
        have h3 := hs c hc
        rw [e] at h3
        revert h3
        decide
      rw [show clientChars (Seg.lit l :: rest) = '/' :: (l ++ clientChars rest)
        from rfl, lexClient_slash, lexClient_lit l hl, ih2]
      rfl
    | par n =>
      rw [show clientChars (Seg.par n :: rest) =
        '/' :: (wildChars ++ clientChars rest) from rfl,
        lexClient_slash, lexClient_group, ih2]
      rfl

theorem jsMatch_pathToRegex (segs : List Seg) (hw : segsWf segs = true)
    (input : String) :
    jsMatch (pathToRegex (routePathOf segs)) input =
      (segsMatchOpt segs input.data).map
        (fun caps => caps.map (fun c => String.mk c)) := by
  have hstrip : stripAnchors (pathToRegex (routePathOf segs)).data =
      some (colonRunsAux groupChars false (escapeChars (pathChars segs))) := by
    show stripAnchors ('^' :: (colonRunsAux groupChars false
      (escapeChars (pathChars segs)) ++ ['$'])) = _
    show (if (colonRunsAux groupChars false (escapeChars (pathChars segs)) ++
        ['$']).getLast? = some '$' then
        some (colonRunsAux groupChars false (escapeChars (pathChars segs)) ++
          ['$']).dropLast
      else none) = _
    rw [List.getLast?_concat, if_pos rfl, List.dropLast_concat]
  rw [jsMatch, hstrip]
  show (matchToks (lexPattern (colonRunsAux groupChars false
      (escapeChars (pathChars segs)))) input.data).map
      (fun caps => caps.map (fun c => String.mk c)) = _
  rw [coreChars_eq segs hw, lexPattern_coreChars, matchToks_tokensOf]

theorem takeWhile_append_all {α : Type} (p : α → Bool) (xs ys : List α)
    (hx : ∀ c ∈ xs, p c = true)
    (hy : ys = [] ∨ ∃ d t, ys = d :: t ∧ p d = false) :
    (xs ++ ys).takeWhile p = xs ∧ (xs ++ ys).dropWhile p = ys := by
  induction xs with
  | nil =>
    rcases hy with h | ⟨d, t, h, hd⟩ <;> subst h
    · exact ⟨rfl, rfl⟩
    · constructor
      · rw [List.nil_append, List.takeWhile_cons, hd]
        rfl
      · rw [List.nil_append, List.dropWhile_cons, hd]
        rfl
  | cons x xs2 ih =>
    have hx1 : p x = true := hx x (by simp)
    obtain ⟨ih1, ih2⟩ := ih (fun c hc => hx c (by simp [hc]))
    constructor
    · rw [List.cons_append, List.takeWhile_cons, hx1]
      simp [ih1]
    · rw [List.cons_append, List.dropWhile_cons, hx1]
      simp [ih2]

theorem urlChars_shape (vals : List Char → List Char) (rest : List Seg) :
    urlChars vals rest = [] ∨ ∃ t, urlChars vals rest = '/' :: t := by
  cases rest with
  | nil => exact Or.inl rfl
  | cons s r2 => cases s <;> exact Or.inr ⟨_, rfl⟩

theorem segsMatchOpt_url (segs : List Seg) (vals : List Char → List Char)
    (hw : segsWf segs = true)
    (hv : ∀ n ∈ paramNamesOf segs, vals n ≠ [] ∧ ∀ c ∈ vals n, c ≠ '/') :
    segsMatchOpt segs (urlChars vals segs) =
      some ((paramNamesOf segs).map vals) := by
  induction segs with
  | nil => rfl
  | cons s rest ih =>
    rw [segsWf, List.all_cons, Bool.and_eq_true] at hw
    obtain ⟨hs, hrest⟩ := hw
    cases s with
    | lit l =>
      rw [show urlChars vals (Seg.lit l :: rest) =
        '/' :: (l ++ urlChars vals rest) from rfl]
      rw [show segsMatchOpt (Seg.lit l :: rest) ('/' :: (l ++ urlChars vals rest)) =
        (match dropLit l (l ++ urlChars vals rest) with
         | some ds2 => segsMatchOpt rest ds2
         | none => none) from rfl, dropLit_append]
      show segsMatchOpt rest (urlChars vals rest) =
        some ((paramNamesOf rest).map vals)
      exact ih hrest hv
    | par n =>
      have hvn := hv n (by
        rw [show paramNamesOf (Seg.par n :: rest) = n :: paramNamesOf rest from rfl]
        simp)
      obtain ⟨hvne, hvslash⟩ := hvn
      rw [show urlChars vals (Seg.par n :: rest) =
        '/' :: (vals n ++ urlChars vals rest) from rfl]
      rw [show segsMatchOpt (Seg.par n :: rest)
          ('/' :: (vals n ++ urlChars vals rest)) =
        (if ((vals n ++ urlChars vals rest).takeWhile
            (fun c => c ≠ '/')).isEmpty then none
         else (segsMatchOpt rest ((vals n ++ urlChars vals rest).dropWhile
             (fun c => c ≠ '/'))).map
           (fun caps => (vals n ++ urlChars vals rest).takeWhile
             (fun c => c ≠ '/') :: caps)) from rfl]
      have happ := takeWhile_append_all (fun c => decide (c ≠ '/'))
        (vals n) (urlChars vals rest)
        (fun c hc => by simpa using hvslash c hc)
        (by
          rcases urlChars_shape vals rest with h | ⟨t, h⟩
          · exact Or.inl h
          · exact Or.inr ⟨'/', t, h, by simp⟩)
      rw [happ.1, happ.2]
      rw [if_neg (by simpa using hvne)]
      rw [ih hrest (fun m hm => hv m (by
        rw [show paramNamesOf (Seg.par n :: rest) = n :: paramNamesOf rest from rfl]
        simp [hm]))]
      rfl

theorem epAux_lookup_uniform (capList : List (Option String)) (names : List String) :
    ∀ (i : Nat) (obj : List (String × String)) (n v : String), n ∈ names →
      (∀ (j : Nat) (h : j < names.length), names.get ⟨j, h⟩ = n →
        (capList.getD (i + j) none).getD "" = v) →
      lookupObj (epAux capList i names obj) n = some v := by
  induction names with
  | nil => intro i obj n v hn _; simp at hn
  | cons m t ih =>
    intro i obj n v hn hval
    rw [epAux]
    by_cases hnt : n ∈ t
    · refine ih (i + 1) _ n v hnt (fun j h hj => ?_)
      have hlt : j + 1 < (m :: t).length := by simpa using Nat.succ_lt_succ h
      have hget : (m :: t).get ⟨j + 1, hlt⟩ = t.get ⟨j, h⟩ := rfl
      have h2 := hval (j + 1) hlt (by rw [hget]; exact hj)
      rw [show i + 1 + j = i + (j + 1) from by omega]
      exact h2
    · have hnm : n = m := by
        rcases List.mem_cons.mp hn with h | h
        · exact h
        · exact absurd h hnt
      subst hnm
      rw [epAux_lookup_notMem capList t _ _ n hnt, lookupObj_objSet_self]
      have h0 := hval 0 (by simp) rfl
      rw [Nat.add_zero] at h0
      rw [h0]

theorem extractParams_lookup_uniform (capList : List (Option String))
    (names : List String) (n v : String) (hn : n ∈ names)
    (hval : ∀ (j : Nat) (h : j < names.length), names.get ⟨j, h⟩ = n →
      (capList.getD j none).getD "" = v) :
    lookupObj (extractParams capList names) n = some v := by
  rw [extractParams_eq_epAux]
  exact epAux_lookup_uniform capList names 0 [] n v hn (fun j h hj => by
    rw [Nat.zero_add]
    exact hval j h hj)

/-! ## Claim C1 amended — round-trip over whole-segment routes -/

/-- **C1, amended.** For every route whose parameter placeholders each
occupy a whole path segment (the `[name]`-as-full-component convention the
repository's pages follow) and every valuation assigning each parameter a
nonempty slash-free value: the pattern produced by `pathToRegex` matches the
URL obtained by substituting every parameter, the captures are exactly the
original parameter values in `paramNames` order, and looking any parameter
up in the record built by `extractParams` returns its original value. -/
theorem c1_roundtrip (segs : List Seg) (vals : List Char → List Char)
    (hw : segsWf segs = true)
    (hv : ∀ n ∈ paramNamesOf segs, vals n ≠ [] ∧ ∀ c ∈ vals n, c ≠ '/') :
    jsMatch (pathToRegex (routePathOf segs)) (urlOf segs vals) =
      some ((paramNamesOf segs).map (fun n => String.mk (vals n))) ∧
    ∀ n ∈ paramNamesOf segs,
      lookupObj
        (extractParams
          (((paramNamesOf segs).map (fun m => String.mk (vals m))).map some)
          ((paramNamesOf segs).map (fun m => String.mk m)))
        (String.mk n) = some (String.mk (vals n)) := by
  constructor
  · rw [jsMatch_pathToRegex segs hw]
    rw [show (urlOf segs vals).data = urlChars vals segs from rfl]
    rw [segsMatchOpt_url segs vals hw hv]
    simp [List.map_map, Function.comp]
  · intro n hn
    refine extractParams_lookup_uniform _ _ _ _ ?_ ?_
    · exact List.mem_map.mpr ⟨n, hn, rfl⟩
    · intro j h hj
      have hlen : j < (paramNamesOf segs).length := by simpa using h
      have hget : ((paramNamesOf segs).map (fun m => String.mk m)).get ⟨j, h⟩ =
          String.mk ((paramNamesOf segs).get ⟨j, hlen⟩) := by
        simp [List.get_eq_getElem, List.getElem_map]
      have hcap : ((((paramNamesOf segs).map
          (fun m => String.mk (vals m))).map some).getD j none) =
          some (String.mk (vals ((paramNamesOf segs).get ⟨j, hlen⟩))) := by
        rw [List.getD_eq_getElem?_getD]
        rw [List.getElem?_map, List.getElem?_map]
        rw [List.getElem?_eq_getElem hlen]
        simp [List.get_eq_getElem]
      rw [hcap]
      rw [hget] at hj
      have hinj : (paramNamesOf segs).get ⟨j, hlen⟩ = n := by
        have := congrArg String.data hj
        simpa using this
      rw [hinj]
      rfl

/-- Witness for the amended C1 (the spec's Scenario C): route
`/blog/:category/:id` with `category = tech`, `id = 1` — the pattern matches
the substituted URL `/blog/tech/1` with captures `tech`, `1`, and both
parameters are recovered by `extractParams`. -/
theorem c1_roundtrip_witness :
    urlOf c1Segs c1Vals = "/blog/tech/1" ∧
    jsMatch (pathToRegex (routePathOf c1Segs)) (urlOf c1Segs c1Vals) =
      some ["tech", "1"] := by
  have h := c1_roundtrip c1Segs c1Vals (by decide) (by decide)
  refine ⟨by decide, ?_⟩
  rw [h.1]
  decide

theorem segsMatchOpt_static (segs : List Seg) (hnp : hasPar segs = false) :
    ∀ input : List Char,
      (segsMatchOpt segs input).isSome = decide (input = pathChars segs) := by
  induction segs with
  | nil =>
    intro input
    cases input with
    | nil => rfl
    | cons d ds =>
      show (none : Option (List (List Char))).isSome =
        decide ((d :: ds : List Char) = [])
      simp
  | cons s rest ih =>
    intro input
    cases s with
    | par n => simp [hasPar] at hnp
    | lit l =>
      have hnp2 : hasPar rest = false := hnp
      cases input with
      | nil =>
        show (none : Option (List (List Char))).isSome =
          decide (([] : List Char) = pathChars (Seg.lit l :: rest))
        rw [show pathChars (Seg.lit l :: rest) = '/' :: (l ++ pathChars rest) from rfl]
        simp
      | cons d ds =>
        by_cases hd : d = '/'
        · subst hd
          rw [show segsMatchOpt (Seg.lit l :: rest) ('/' :: ds) =
            (match dropLit l ds with
             | some ds2 => segsMatchOpt rest ds2
             | none => none) from rfl]
          cases hdl : dropLit l ds with
          | some ds2 =>
            simp only [hdl]
            have heq := dropLit_some l ds ds2 hdl
            subst heq
            rw [ih hnp2 ds2]
            rw [show pathChars (Seg.lit l :: rest) = '/' :: (l ++ pathChars rest) from rfl]
            rw [decide_eq_decide]
            constructor
            · intro h; rw [h]
            · intro h
              injection h with _ h2
              exact List.append_cancel_left h2
          | none =>
            simp only [hdl]
            have hne : ('/' :: ds : List Char) ≠ pathChars (Seg.lit l :: rest) := by
              intro h
              rw [show pathChars (Seg.lit l :: rest) =
                '/' :: (l ++ pathChars rest) from rfl] at h
              injection h with _ h2
              rw [h2, dropLit_append] at hdl
              exact Option.noConfusion hdl
            simp [hne]
        · have hL : segsMatchOpt (Seg.lit l :: rest) (d :: ds) = none := by
            rw [show segsMatchOpt (Seg.lit l :: rest) (d :: ds) =
              (if d = '/' then
                (match dropLit l ds with
                 | some ds2 => segsMatchOpt rest ds2
                 | none => none)
               else none) from rfl]
            exact if_neg hd
          rw [hL]
          have hne : (d :: ds : List Char) ≠ pathChars (Seg.lit l :: rest) := by
            intro h
            rw [show pathChars (Seg.lit l :: rest) =
              '/' :: (l ++ pathChars rest) from rfl] at h
            injection h with h1 _
            exact hd h1
          simp [hne]

theorem segsMatchOpt_selfPath (segs : List Seg) (hw : segsWf segs = true) :
    (segsMatchOpt segs (pathChars segs)).isSome = true := by
  induction segs with
  | nil => rfl
  | cons s rest ih =>
    rw [segsWf, List.all_cons, Bool.and_eq_true] at hw
    obtain ⟨hs, hrest⟩ := hw
    cases s with
    | lit l =>
      rw [show pathChars (Seg.lit l :: rest) = '/' :: (l ++ pathChars rest) from rfl]
      rw [show segsMatchOpt (Seg.lit l :: rest) ('/' :: (l ++ pathChars rest)) =
        (match dropLit l (l ++ pathChars rest) with
         | some ds2 => segsMatchOpt rest ds2
         | none => none) from rfl, dropLit_append]
      show (segsMatchOpt rest (pathChars rest)).isSome = true
      exact ih hrest
    | par n =>
      rw [segWf] at hs
      simp only [Bool.and_eq_true, Bool.not_eq_true', List.isEmpty_eq_false,
        List.all_eq_true, decide_eq_true_eq] at hs
      obtain ⟨hne, hslash⟩ := hs
      rw [show pathChars (Seg.par n :: rest) =
        '/' :: ((':' :: n) ++ pathChars rest) from rfl]
      rw [show segsMatchOpt (Seg.par n :: rest)
          ('/' :: ((':' :: n) ++ pathChars rest)) =
        (if (((':' :: n) ++ pathChars rest).takeWhile
            (fun c => c ≠ '/')).isEmpty then none
         else (segsMatchOpt rest (((':' :: n) ++ pathChars rest).dropWhile
             (fun c => c ≠ '/'))).map
           (fun caps => ((':' :: n) ++ pathChars rest).takeWhile
             (fun c => c ≠ '/') :: caps)) from rfl]
      have happ := takeWhile_append_all (fun c => decide (c ≠ '/')) (':' :: n)
        (pathChars rest)
        (fun c hc => by
          rcases List.mem_cons.mp hc with h | h
          · rw [h]; decide
          · simpa using hslash c h)
        (by
          rcases pathChars_shape rest with h | ⟨t, h⟩
          · exact Or.inl h
          · exact Or.inr ⟨'/', t, h, by decide⟩)
      rw [happ.1, happ.2]
      rw [if_neg (by simp)]
      have hrec := ih hrest
      cases hx : segsMatchOpt rest (pathChars rest) with
      | some v => simp
      | none => rw [hx] at hrec; simp at hrec

theorem segsWfStrict_wf (segs : List Seg) (hw : segsWfStrict segs = true) :
    segsWf segs = true := by
  rw [segsWfStrict, List.all_eq_true] at hw
  rw [segsWf, List.all_eq_true]
  intro s hs
  have h := hw s hs
  cases s with
  | lit l =>
    rw [segWfStrict] at h
    rw [segWf]
    simp only [List.all_eq_true, Bool.and_eq_true, decide_eq_true_eq] at h ⊢
    intro c hc
    exact (h c hc).1
  | par n => exact h

theorem entry_test_equiv (segs : List Seg) (hw : segsWfStrict segs = true)
    (input : String) :
    (jsMatch (pathToRegex (routePathOf segs)) input).isSome =
      clientRouteTest (mkClientRoute segs) input := by
  have hw2 := segsWfStrict_wf segs hw
  rw [jsMatch_pathToRegex segs hw2 input]
  rw [clientRouteTest]
  rw [show (mkClientRoute segs).path = routePathOf segs from rfl,
    show (mkClientRoute segs).isDynamic = hasPar segs from rfl,
    show (routePathOf segs).data = pathChars segs from rfl]
  rw [clientChars_eq segs hw, lexClient_clientChars segs hw, matchToks_tokensOf]
  have hmap : ((segsMatchOpt segs input.data).map
      (fun caps => caps.map (fun c => String.mk c))).isSome =
      (segsMatchOpt segs input.data).isSome := by
    cases segsMatchOpt segs input.data <;> rfl
  rw [hmap]
  by_cases hp : hasPar segs
  · rw [hp]
    by_cases heq : routePathOf segs = input
    · have hdata : input.data = pathChars segs := by rw [← heq]; rfl
      rw [hdata, segsMatchOpt_selfPath segs hw2]
      simp [heq]
    · simp [heq]
  · have hp2 : hasPar segs = false := by simpa using hp
    rw [segsMatchOpt_static segs hp2 input.data]
    simp only [hp2, Bool.false_and, Bool.or_false]
    rw [decide_eq_decide]
    constructor
    · intro h
      exact String.ext (show (routePathOf segs).data = input.data from h.symm)
    · intro h
      rw [← h]
      rfl

theorem takeWhile_all {α : Type} (p : α → Bool) (l : List α)
    (h : ∀ c ∈ l, p c = true) : l.takeWhile p = l := by
  induction l with
  | nil => rfl
  | cons a t ih =>
    rw [List.takeWhile_cons, h a (by simp)]
    simp [ih (fun c hc => h c (by simp [hc]))]

theorem stripQuery_eq_self (url : String) (hq : ∀ c ∈ url.data, c ≠ '?')
    (hne : url ≠ "") :
    stripQuery url = url := by
  have htw := takeWhile_all (fun c => decide (c ≠ '?')) url.data
    (fun c hc => by simpa using hq c hc)
  have hdata : url.data ≠ [] := fun e => hne (String.ext (by rw [e]))
  rw [stripQuery]
  simp only [htw]
  rw [if_neg (by simpa using hdata)]

theorem matchLoop_cons (r : RouteEntry) (rest : List RouteEntry) (p : String) :
    matchLoop (r :: rest) p =
      (match jsMatch r.pattern p with
       | some caps => some ⟨r, extractParams (caps.map some) r.paramNames⟩
       | none => matchLoop rest p) := rfl

theorem c4_loop (url : String) :
    ∀ pgs : List (List Seg), (∀ segs ∈ pgs, segsWfStrict segs = true) →
      (matchLoop (pgs.map mkRouteEntry) url).map (fun m => m.route.path) =
        (clientFind (pgs.map mkClientRoute) url).map (fun r => r.path) := by
  intro pgs
  induction pgs with
  | nil => intro _; rfl
  | cons segs rest ih =>
    intro hw
    have hws := hw segs (by simp)
    have hwr : ∀ s ∈ rest, segsWfStrict s = true :=
      fun s hs => hw s (List.mem_cons_of_mem _ hs)
    have hequiv := entry_test_equiv segs hws url
    rw [List.map_cons, List.map_cons]
    cases hj : jsMatch (mkRouteEntry segs).pattern url with
    | some caps =>
      have hc : clientRouteTest (mkClientRoute segs) url = true := by
        rw [show (mkRouteEntry segs).pattern =
          pathToRegex (routePathOf segs) from rfl] at hj
        rw [← hequiv, hj]
        rfl
      rw [matchLoop_cons]
      simp only [hj]
      rw [clientFind]
      rw [show List.find? (fun r => clientRouteTest r url)
          (mkClientRoute segs :: List.map mkClientRoute rest) =
        (match clientRouteTest (mkClientRoute segs) url with
         | true => some (mkClientRoute segs)
         | false => List.find? (fun r => clientRouteTest r url)
             (List.map mkClientRoute rest)) from rfl]
      rw [hc]
      rfl
    | none =>
      have hc : clientRouteTest (mkClientRoute segs) url = false := by
        rw [show (mkRouteEntry segs).pattern =
          pathToRegex (routePathOf segs) from rfl] at hj
        rw [← hequiv, hj]
        rfl
      rw [matchLoop_cons]
      simp only [hj]
      rw [clientFind]
      rw [show List.find? (fun r => clientRouteTest r url)
          (mkClientRoute segs :: List.map mkClientRoute rest) =
        (match clientRouteTest (mkClientRoute segs) url with
         | true => some (mkClientRoute segs)
         | false => List.find? (fun r => clientRouteTest r url)
             (List.map mkClientRoute rest)) from rfl]
      rw [hc]
      exact ih hwr

/-! ## Claim C4 — server/client dispatch equivalence -/

/-- **Counterexample to C4 as stated.** For the manifest containing only the
static route `/about` and the input path `/about?x=1`, the server's
`matchRoute` strips the query component and selects the `/about` entry; the
client routine of `loadPageComponent` performs no query stripping, so the
exact match fails and — the route being static — it selects nothing: the two
dispatchers do not select the same entry for every input path. -/
theorem c4_counterexample :
    (matchRoute [mkRouteEntry [Seg.lit "about".data]] "/about?x=1").map
      (fun m => m.route.path) = some "/about" ∧
    clientFind [mkClientRoute [Seg.lit "about".data]] "/about?x=1" = none :=
  ⟨by decide, by decide⟩

/-- **C4, amended.** For every manifest generated from well-formed
segment routes (parameter placeholders occupying whole segments; literal
segments free of `/`, `:` and regex metacharacters), and every nonempty
input path without a query component, the server's `matchRoute` and the
client's manifest-matching routine select the same route entry. -/
theorem c4_dispatch_equiv (pgs : List (List Seg)) (url : String)
    (hw : ∀ segs ∈ pgs, segsWfStrict segs = true)
    (hq : ∀ c ∈ url.data, c ≠ '?') (hne : url ≠ "") :
    (matchRoute (pgs.map mkRouteEntry) url).map (fun m => m.route.path) =
      (clientFind (pgs.map mkClientRoute) url).map (fun r => r.path) := by
  rw [matchRoute, stripQuery_eq_self url hq hne]
  exact c4_loop url pgs hw

/-- Witness for the amended C4: on the manifest `[/blog/:id, /about]` and
the input `/blog/7`, server and client select the same (dynamic) entry. -/
theorem c4_dispatch_equiv_witness :
    (matchRoute [mkRouteEntry [Seg.lit "blog".data, Seg.par "id".data],
        mkRouteEntry [Seg.lit "about".data]] "/blog/7").map
      (fun m => m.route.path) =
    (clientFind [mkClientRoute [Seg.lit "blog".data, Seg.par "id".data],
        mkClientRoute [Seg.lit "about".data]] "/blog/7").map
      (fun r => r.path) :=
  c4_dispatch_equiv [[Seg.lit "blog".data, Seg.par "id".data],
    [Seg.lit "about".data]] "/blog/7" (by decide) (by decide) (by decide)

/-! ## Claim C7 — paramNames.length vs. capture-group count (code bug) -/

/-- **C7 exhibits a code bug.** For the scanned page
`blog/[category]/index.jsx` — an `index` file inside a bracketed directory,
a standard layout — `generateRoutePath`'s `index` early return
(`scan-pages.js` lines 437–439) returns the base path verbatim, skipping the
bracket-to-colon conversion that its own comment (line 441) and the spec
(§4.1: the conversion "applies to every path segment") promise.  The
resulting RouteEntry has pattern `^/blog/\[category\]$` with 0 capture
groups but `paramNames = [category]` of length 1, violating the documented
invariant that the claim states. -/
theorem c7_code_bug :
    (generateRoutesEntry (scanFile "blog/[category]" "index" ".jsx"
        "pages/blog/[category]/index.jsx")).paramNames = ["category"] ∧
    (generateRoutesEntry (scanFile "blog/[category]" "index" ".jsx"
        "pages/blog/[category]/index.jsx")).pattern = "^/blog/\\[category\\]$" ∧
    countGroups (generateRoutesEntry (scanFile "blog/[category]" "index" ".jsx"
        "pages/blog/[category]/index.jsx")).pattern.data ≠
      (generateRoutesEntry (scanFile "blog/[category]" "index" ".jsx"
        "pages/blog/[category]/index.jsx")).paramNames.length :=
  ⟨by decide, by decide, by decide⟩

/-! ## Claim C1 — route-compilation round-trip -/

/-- **Counterexample to C1 as stated.** The page file `[id]x.jsx` (a bracket
group with a trailing literal in one file name) is compiled to route path
`/:idx` with `paramNames = [id]`.  The `:`-run replacement of `pathToRegex`
swallows the literal `x`, producing `^/([^/]+)$`.  The URL built by
substituting `id = v` (exactly the artifact path the build derives) is
`/vx`; the pattern matches it, but positional extraction returns `id = vx`,
not the original value `v` — the round-trip fails on this generated
path/parameter combination. -/
theorem c1_counterexample :
    generateRoutePath "" "[id]x" = "/:idx" ∧
    extractParamNames "[id]x.jsx" = ["id"] ∧
    pathToRegex "/:idx" = "^/([^/]+)$" ∧
    getOutputPath "/:idx" [("id", "v")] = "/vx" ∧
    jsMatch (pathToRegex "/:idx") "/vx" = some ["vx"] ∧
    extractParams [some "vx"] ["id"] ≠ [("id", "v")] :=
  ⟨by decide, by decide, by decide, by decide, by decide, by decide⟩

end MiniNext
